import Mathlib

/-!
Verification of the rtfs-mcp documentation/source-browsing server core.

The TypeScript source is shallowly embedded: each Lean definition mirrors one
function of the repository (file and line references in the doc comments).
Remote content (the GitHub contents API) is modelled by an explicit oracle
argument `String → FetchResult` giving, for each path, the outcome the remote
gateway would produce; file-system writes are modelled by explicit state
passing.  JavaScript strings are modelled by Lean `String`, JS objects
(`Record<string, T>`) by association lists with JS property semantics
(first-key lookup, in-place overwrite, insertion-order append).
-/

/-! ### JavaScript string primitives -/

/-- The character class `\s` of JavaScript regular expressions (also the set
trimmed by `String.prototype.trim`): ASCII whitespace plus the Unicode space
separators, NBSP, BOM and the two line separators. -/
def isJsSpace (c : Char) : Bool :=
  c = ' ' || c = '\t' || c = '\n' || c = '\r' || c = '\x0b' || c = '\x0c' ||
  c = ' ' || c = ' ' ||
  (' ' ≤ c && c ≤ ' ') ||
  c = ' ' || c = ' ' || c = ' ' || c = ' ' ||
  c = '　' || c = '﻿'

/-- JS line terminators: the characters the regexp `.` never matches. -/
def isLineTerm (c : Char) : Bool :=
  c = '\n' || c = '\r' || c = ' ' || c = ' '

/-- `String.prototype.toLowerCase`, modelled on the ASCII range (all strings in
the repository's data and tests are ASCII; full Unicode case mapping is not
modelled). -/
def jsCharToLower (c : Char) : Char :=
  if 'A' ≤ c ∧ c ≤ 'Z' then Char.ofNat (c.toNat + 32) else c

/-- `toLowerCase` on a whole string. -/
def jsToLower (s : String) : String :=
  String.mk (s.data.map jsCharToLower)

/-- `String.prototype.trim`: strips `\s` characters from both ends. -/
def jsTrim (s : String) : String :=
  String.mk (((s.data.dropWhile isJsSpace).reverse.dropWhile isJsSpace).reverse)

/-- Structural worker for `splitLines`. -/
def splitLinesAux : List Char → List Char → List String
  | [], acc => [String.mk acc.reverse]
  | c :: cs, acc =>
    if c = '\n' then String.mk acc.reverse :: splitLinesAux cs []
    else splitLinesAux cs (c :: acc)

/-- `content.split("\n")` as used throughout the source: every `\n` separates
two (possibly empty) lines; the empty string yields one empty line. -/
def splitLines (s : String) : List String :=
  splitLinesAux s.data []

/-- `array.join("\n")` on a list of lines. -/
def joinLines : List String → String
  | [] => ""
  | [l] => l
  | l :: ls => l ++ "\n" ++ joinLines ls

/-- Prefix test on character lists (the shape `s.startsWith(p)` has). -/
def leadsWith : List Char → List Char → Bool
  | _, [] => true
  | [], _ :: _ => false
  | c :: cs, d :: ds => c = d && leadsWith cs ds

/-- Substring containment on character lists: some suffix of `s` starts with
`sub`.  This is `s.includes(sub)` of JavaScript. -/
def hasSubL (s sub : List Char) : Bool :=
  match s with
  | [] => sub.isEmpty
  | _ :: rest => leadsWith s sub || hasSubL rest sub

/-- `s.includes(sub)` on strings. -/
def hasSub (s sub : String) : Bool :=
  hasSubL s.data sub.data

/-- JS object property read `obj[key]`: first (unique) matching key. -/
def lookupRec {α : Type} : List (String × α) → String → Option α
  | [], _ => none
  | (k, v) :: rest, key => if k = key then some v else lookupRec rest key

/-- JS object property write `obj[key] = v`: overwrite in place when the key
exists, otherwise append in insertion order. -/
def recordSet {α : Type} (m : List (String × α)) (k : String) (v : α) :
    List (String × α) :=
  if m.any (fun p => p.1 = k) then
    m.map (fun p => if p.1 = k then (p.1, v) else p)
  else m ++ [(k, v)]

/-- `counts[k] = (counts[k] || 0) + 1`. -/
def bumpCount (m : List (String × Nat)) (k : String) : List (String × Nat) :=
  if m.any (fun p => p.1 = k) then
    m.map (fun p => if p.1 = k then (p.1, p.2 + 1) else p)
  else m ++ [(k, 1)]

/-! ### The remote content gateway's possible answers

`fetchGitHubContent(repo, path, branch)` either throws (network/HTTP error),
returns a JSON array (directory listing) or a JSON object (file descriptor).
An oracle `String → FetchResult` fixes, for one `(repo, branch)` pair, the
outcome at every path. -/

/-- One entry of a GitHub directory listing: its `name` and `type` fields
(`"file"`, `"dir"`, or anything else such as `"symlink"`). -/
structure DirEntry where
  name : String
  typ : String
deriving DecidableEq, Repr

/-- Outcome of one `fetchGitHubContent` call: a thrown error, a non-array JSON
body (file or other object), or a directory listing. -/
inductive FetchResult where
  | err
  | file
  | dir (entries : List DirEntry)
deriving DecidableEq, Repr

/-! ### Recursive file enumerator — `findFilesRecursively` (shared.ts) -/

/-- One level of `findFilesRecursively`'s body (source `shared.js` /
`src/unnamed/part_003` lines 563-599): fetch the listing at `path`; a thrown
fetch or a non-array body contributes `[]`; otherwise each file entry passing
`fileFilter` is emitted, and each directory entry is expanded through `next`
when `recurseAllowed` (i.e. `maxDepth > 1`) holds. -/
def findFilesStep (oracle : String → FetchResult)
    (fileFilter : String → String → Bool) (recurseAllowed : Bool)
    (next : String → List String) (path : String) : List String :=
  match oracle path with
  | FetchResult.dir entries =>
    entries.flatMap (fun item =>
      let itemPath := if path ≠ "" then path ++ "/" ++ item.name else item.name
      if item.typ = "file" then
        (if fileFilter item.name itemPath then [itemPath] else [])
      else if item.typ = "dir" && recurseAllowed then next itemPath
      else [])
  | _ => []

/-- `findFilesRecursively` at non-negative depth: depth `d + 1` behaves as one
`findFilesStep` whose recursion (allowed iff `d + 1 > 1`) descends at depth
`d = (d + 1) - 1`. -/
def findFilesAux (oracle : String → FetchResult)
    (fileFilter : String → String → Bool) : Nat → String → List String
  | 0, _ => []
  | d + 1, path =>
    findFilesStep oracle fileFilter (decide (0 < d))
      (findFilesAux oracle fileFilter d) path

/-- `findFilesRecursively(repo, path, branch, fileFilter, maxDepth)`
(`src/unnamed/part_003` lines 563-599).  The `(repo, branch)` pair is folded
into `oracle`; `maxDepth` is an `Int` so that the guard `maxDepth <= 0` is
modelled on all JS numbers the source compares against. -/
def findFilesRecursively (oracle : String → FetchResult)
    (fileFilter : String → String → Bool) (maxDepth : Int) (path : String) :
    List String :=
  if maxDepth ≤ 0 then [] else findFilesAux oracle fileFilter maxDepth.toNat path

/-! ### Markdown section indexing — `docTools.ts` -/

/-- `line.match(/^(#{1,6})\s+(.+)$/)`: returns `(level, rawTitle)` where
`rawTitle` is the second capture group.  The hash run must have length 1-6 and
be followed by at least one `\s` character; greedy `\s+` leaves `(.+)` the
remainder after the maximal whitespace run, except that when the remainder is
empty the engine backtracks one whitespace character into the capture; `.`
matches no line terminator. -/
def headingMatchLine (line : String) : Option (Nat × String) :=
  let cs := line.data
  let hashes := cs.takeWhile (fun c => c = '#')
  let rest := cs.dropWhile (fun c => c = '#')
  if hashes.length = 0 ∨ 6 < hashes.length then none
  else
    let ws := rest.takeWhile isJsSpace
    let tail := rest.dropWhile isJsSpace
    if ws.length = 0 then none
    else if tail ≠ [] then
      if tail.any isLineTerm then none else some (hashes.length, String.mk tail)
    else
      match ws.getLast? with
      | some c => if 2 ≤ ws.length ∧ ¬ isLineTerm c then
          some (hashes.length, String.mk [c]) else none
      | none => none

/-- The second capture group of the heading regexp, when the line is a
heading. -/
def headingTitleRaw (line : String) : Option String :=
  (headingMatchLine line).map (fun p => p.2)

/-- Whether a line matches the heading regexp. -/
def isHeadingLine (line : String) : Bool :=
  (headingTitleRaw line).isSome

/-- The key under which `extractMarkdownSections` files the section this
heading starts: `match[2].trim().toLowerCase()`. -/
def headingKey (line : String) : Option String :=
  (headingTitleRaw line).map (fun r => jsToLower (jsTrim r))

/-- `sections[currentSectionName.toLowerCase()] = sectionContent.join("\n")`,
guarded by JS truthiness of `currentSectionName` and non-emptiness of
`sectionContent` (`docTools.ts` lines 254-256 and 268-270).  `acc` holds the
pending section's lines in reverse push order. -/
def saveSection (secs : List (String × String)) (name : String)
    (acc : List String) : List (String × String) :=
  if name ≠ "" ∧ acc ≠ [] then
    recordSet secs (jsToLower name) (joinLines acc.reverse)
  else secs

/-- The line loop of `extractMarkdownSections` (`docTools.ts` lines 248-270):
a heading line saves the pending section and starts a new one (whose content
begins with the heading line itself); any other line is appended to the
pending section; the final pending section is saved after the loop. -/
def sectionsGo : List String → String → List String → List (String × String) →
    List (String × String)
  | [], name, acc, secs => saveSection secs name acc
  | line :: rest, name, acc, secs =>
    match headingTitleRaw line with
    | some raw => sectionsGo rest (jsTrim raw) [line] (saveSection secs name acc)
    | none => sectionsGo rest name (line :: acc) secs

/-- `extractMarkdownSections(content)` (`docTools.ts` lines 241-273). -/
def extractMarkdownSections (content : String) : List (String × String) :=
  sectionsGo (splitLines content) "" [] []

/-- Characters kept by `replace(/[^a-z0-9\s-]/g, "")` (applied after
`toLowerCase`). -/
def keepAnchorChar (c : Char) : Bool :=
  ('a' ≤ c && c ≤ 'z') || ('0' ≤ c && c ≤ '9') || isJsSpace c || c = '-'

/-- `replace(/\s+/g, "-")`: each maximal whitespace run becomes one hyphen.
The flag records whether the previous character was whitespace. -/
def collapseWsAux : Bool → List Char → List Char
  | _, [] => []
  | prevWs, c :: rest =>
    if isJsSpace c then
      (if prevWs then [] else ['-']) ++ collapseWsAux true rest
    else c :: collapseWsAux false rest

/-- The anchor derived from a (trimmed) heading title (`docTools.ts` lines
287-290): lower-case, strip everything outside `[a-z0-9\s-]`, then collapse
whitespace runs to single hyphens. -/
def anchorOf (title : String) : String :=
  String.mk (collapseWsAux false ((jsToLower title).data.filter keepAnchorChar))

/-- One element of `findSectionHeaders`'s result. -/
structure SectionHeader where
  level : Nat
  title : String
  anchor : String
deriving DecidableEq, Repr

/-- `findSectionHeaders(content)` (`docTools.ts` lines 276-296). -/
def findSectionHeaders (content : String) : List SectionHeader :=
  (splitLines content).filterMap (fun line =>
    (headingMatchLine line).map (fun p =>
      let title := jsTrim p.2
      SectionHeader.mk p.1 title (anchorOf title)))

/-- What the section branch of the `get-doc` tool produces. -/
inductive GetDocSectionResult where
  | body (text : String)
  | fallback (available : List SectionHeader)
deriving DecidableEq, Repr

/-- The section branch of `get-doc` (`docTools.ts` lines 396-427): look the
requested anchor up in `extractMarkdownSections(content)` after lower-casing
it; a truthy (non-empty) body is returned, otherwise the available headers are
listed as a fallback. -/
def getDocSection (content sectionAnchor : String) : GetDocSectionResult :=
  match lookupRec (extractMarkdownSections content) (jsToLower sectionAnchor) with
  | some b =>
    if b ≠ "" then GetDocSectionResult.body b
    else GetDocSectionResult.fallback (findSectionHeaders content)
  | none => GetDocSectionResult.fallback (findSectionHeaders content)

/-- The section slice starting at the last heading of `ls` whose
`headingKey` is `k`: that heading line followed by every following line up to
(exclusive of) the next heading-shaped line.  `none` when no heading of `ls`
has key `k`. -/
def lastSectionSlice (k : String) : List String → Option (List String)
  | [] => none
  | line :: rest =>
    match lastSectionSlice k rest with
    | some s => some s
    | none =>
      if headingKey line = some k then
        some (line :: rest.takeWhile (fun l => ¬ isHeadingLine l))
      else none

/-! ### Keyword search over one file's content -/

/-- The context slice `lines.slice(start, end + 1).join("\n")` with
`start = max(0, i - radius)` and `end = min(lines.length - 1, i + radius)`
(natural subtraction performs the low clamp). -/
def ctxSlice (lines : List String) (i radius : Nat) : String :=
  let start := i - radius
  let e := min (lines.length - 1) (i + radius)
  joinLines ((lines.drop start).take (e + 1 - start))

/-- The per-line match loop of `searchDocumentation` (`docTools.ts` lines
215-222): a case-insensitive substring hit on line `i` yields
`Line ${i+1}: ${context}` with a radius-1 context slice. -/
def searchDocFileMatches (content query : String) : List String :=
  let lines := splitLines content
  (List.range lines.length).filterMap (fun i =>
    if hasSub (jsToLower (lines.getD i "")) (jsToLower query) then
      some ("Line " ++ toString (i + 1) ++ ": " ++ ctxSlice lines i 1)
    else none)

/-- The per-line match loop of the `search-source` tool (`src/unnamed/part_003`
lines 280-287): identical radius-1 window and `Line ${i+1}: ${context}`
format. -/
def searchSourceFileMatches (content query : String) : List String :=
  let lines := splitLines content
  (List.range lines.length).filterMap (fun i =>
    if hasSub (jsToLower (lines.getD i "")) (jsToLower query) then
      some ("Line " ++ toString (i + 1) ++ ": " ++ ctxSlice lines i 1)
    else none)

/-- The per-line match loop of `searchRepoExamples` (`exampleTools.ts` lines
140-151): guarded by a whole-content case-insensitive hit, each matching line
yields `Line ${i+1}:\n${context}` with a radius-2 context slice. -/
def searchExamplesFileMatches (content query : String) : List String :=
  if hasSub (jsToLower content) (jsToLower query) then
    let lines := splitLines content
    (List.range lines.length).filterMap (fun i =>
      if hasSub (jsToLower (lines.getD i "")) (jsToLower query) then
        some ("Line " ++ toString (i + 1) ++ ":\n" ++ ctxSlice lines i 2)
      else none)
  else []

/-- The window the specification describes: the matched line together with the
lines whose index is at distance at most `radius`, clamped to the content's
bounds. -/
def specWindow (lines : List String) (i radius : Nat) : List String :=
  (List.range lines.length).filterMap (fun j =>
    if i - radius ≤ j ∧ j ≤ i + radius then some (lines.getD j "") else none)

/-! ### The truncating search drivers — `search-source` and `search-examples`

The enumeration stage (`findFilesRecursively` per configured path) is passed
in as `enumerated : List (List String)`, one file list per configured search
path; fetching one file's decoded content is the oracle
`String → Option RemoteFile` (`none` models a thrown fetch, skipped by the
`try/catch`). -/

/-- A fetched file body as the drivers see it: the JSON `type` and `encoding`
fields and the decoded text. -/
structure RemoteFile where
  typ : String
  encoding : String
  text : String
deriving DecidableEq, Repr

/-- One configured path of the `search-source` loop (`src/unnamed/part_003`
lines 260-297): visit only `files.slice(0, 20)`, fetch each, search base64
files, and retain `matches.slice(0, 5)` when any match exists.  Returns the
fetched paths and the per-file results in push order. -/
def searchSourcePath (oracle : String → Option RemoteFile) (query : String)
    (files : List String) : List String × List (String × List String) :=
  ((files.take 20),
   (files.take 20).filterMap (fun file =>
     match oracle file with
     | some c =>
       if c.typ = "file" ∧ c.encoding = "base64" then
         let ms := searchSourceFileMatches c.text query
         if ms ≠ [] then some (file, ms.take 5) else none
       else none
     | none => none))

/-- The whole `search-source` loop over every configured search path. -/
def searchSourceRun (oracle : String → Option RemoteFile) (query : String)
    (enumerated : List (List String)) :
    List String × List (String × List String) :=
  (enumerated.flatMap (fun fs => (searchSourcePath oracle query fs).1),
   enumerated.flatMap (fun fs => (searchSourcePath oracle query fs).2))

/-- One configured path of `searchRepoExamples` (`exampleTools.ts` lines
123-165): visit only `files.slice(0, 15)`, and retain `matches.slice(0, 3)`
per file. -/
def searchExamplesPath (oracle : String → Option RemoteFile) (query : String)
    (files : List String) : List String × List (String × List String) :=
  ((files.take 15),
   (files.take 15).filterMap (fun file =>
     match oracle file with
     | some c =>
       if c.typ = "file" ∧ c.encoding = "base64" then
         let ms := searchExamplesFileMatches c.text query
         if ms ≠ [] then some (file, ms.take 3) else none
       else none
     | none => none))

/-- The whole `searchRepoExamples` loop over every configured example path. -/
def searchExamplesRun (oracle : String → Option RemoteFile) (query : String)
    (enumerated : List (List String)) :
    List String × List (String × List String) :=
  (enumerated.flatMap (fun fs => (searchExamplesPath oracle query fs).1),
   enumerated.flatMap (fun fs => (searchExamplesPath oracle query fs).2))

/-! ### Remote content gateway errors — `fetchGitHubContent` (shared.ts) -/

/-- `parseInt(s)` for base 10: leading whitespace, an optional sign, then a
digit run; `none` models `NaN` (no digits).  The hexadecimal `0x` prefix of
`parseInt` is not modelled (no call site produces one). -/
def jsParseInt (s : String) : Option Int :=
  let cs := s.data.dropWhile isJsSpace
  let signed : Int × List Char :=
    match cs with
    | '-' :: r => (-1, r)
    | '+' :: r => (1, r)
    | _ => (1, cs)
  let ds := signed.2.takeWhile (fun c => c.isDigit)
  if ds = [] then none
  else some (signed.1 * (ds.foldl (fun a c => a * 10 + (c.toNat - 48)) 0 : Nat))

/-- Template interpolation `${x}` of a possibly-`null` header value. -/
def jsShowNullable (o : Option String) : String := o.getD "null"

/-- An HTTP response as `fetchGitHubContent` inspects it: `ok`, `status`,
`statusText`, the two rate-limit headers (`none` = header absent, i.e.
`headers.get` returned `null`) and the parsed JSON body. -/
structure GitHubResponse where
  ok : Bool
  status : Nat
  statusText : String
  rateLimitRemaining : Option String
  rateLimitReset : Option String
  body : FetchResult
deriving DecidableEq

/-- What one attempted HTTP exchange produced: a transport-level failure or a
response. -/
inductive TransportResult where
  | networkError (msg : String)
  | response (r : GitHubResponse)
deriving DecidableEq

/-- The message thrown inside the `try` block for a non-`ok` response
(`src/unnamed/part_003` lines 445-464).  `fmt` abstracts
`t ↦ new Date(t).toLocaleTimeString()` (locale-dependent); its argument is
`parseInt(resetHeader) * 1000`, `none` for `NaN`. -/
def fetchErrorMessage (fmt : Option Int → String) (hasApiKey : Bool)
    (r : GitHubResponse) : Option String :=
  if r.ok then none
  else if r.status = 403 then
    some ("GitHub API rate limit exceeded. Remaining: " ++
      jsShowNullable r.rateLimitRemaining ++ ". Resets at: " ++
      (match r.rateLimitReset with
       | some t => fmt ((jsParseInt t).map (fun n => n * 1000))
       | none => "unknown") ++ ". " ++
      (if hasApiKey then "Authenticated"
       else "Consider adding a GitHub API key to config.json for higher rate limits"))
  else some ("GitHub API error: " ++ toString r.status ++ " " ++ r.statusText)

/-- `fetchGitHubContent` after the transport finished (`src/unnamed/part_003`
lines 423-474): the surrounding `catch` re-wraps every failure — network or
thrown status error — as `Failed to fetch from GitHub: <message>`. -/
def fetchGitHubContentModel (fmt : Option Int → String) (hasApiKey : Bool)
    (t : TransportResult) : Except String FetchResult :=
  match t with
  | TransportResult.networkError m =>
    Except.error ("Failed to fetch from GitHub: " ++ m)
  | TransportResult.response r =>
    match fetchErrorMessage fmt hasApiKey r with
    | some m => Except.error ("Failed to fetch from GitHub: " ++ m)
    | none => Except.ok r.body

/-- The `browse-repo` tool's catch branch (`src/unnamed/part_003` lines
114-125): a fetch failure is rendered as
`Error browsing repository: <message>`. -/
def browseRepoErrorText (fmt : Option Int → String) (hasApiKey : Bool)
    (t : TransportResult) : Option String :=
  match fetchGitHubContentModel fmt hasApiKey t with
  | Except.error m => some ("Error browsing repository: " ++ m)
  | Except.ok _ => none

/-! ### Repository structure analyzer — `repoManagement.ts` -/

/-- `path.extname(name).toLowerCase()`: the suffix from the last `.` (included)
to the end, or `""` when there is no `.` or the only `.` is the leading
character (hidden file). -/
def extnameJs (name : String) : String :=
  let cs := name.data
  let afterFirst := if cs.head? = some '.' then cs.drop 1 else cs
  let tailPart := afterFirst.reverse.takeWhile (fun c => c ≠ '.')
  if tailPart.length = afterFirst.length then ""
  else jsToLower (String.mk ('.' :: tailPart.reverse))

/-- The mutable analysis accumulators of `analyzeRepository`
(`repoManagement.ts` lines 50-55): `fileTypeCounts` and the three suggested
path lists. -/
structure AnalyzeState where
  fileTypeCounts : List (String × Nat)
  srcPaths : List String
  examplePaths : List String
  docsPaths : List String
deriving DecidableEq, Repr

/-- The empty accumulators the analyzer starts from. -/
def initAnalyzeState : AnalyzeState := AnalyzeState.mk [] [] [] []

/-- One node of the structure tree `exploreDirectory` returns. -/
inductive TreeItem where
  | node (name typ path : String) (children : Option (List TreeItem))

/-- The interesting-directory test of `exploreDirectory` (`repoManagement.ts`
lines 82-90). -/
def shouldExpand (item : DirEntry) : Bool :=
  item.typ = "dir" &&
    (hasSub (jsToLower item.name) "src" ||
     hasSub (jsToLower item.name) "example" ||
     hasSub (jsToLower item.name) "docs" ||
     hasSub (jsToLower item.name) "demo" ||
     hasSub (jsToLower item.name) "readme.md" ||
     item.name = "packages" ||
     item.name = "apps")

/-- The suggestion pushes of `exploreDirectory` (`repoManagement.ts` lines
100-112), executed after the child recursion in the expand branch. -/
def pushSuggestions (st : AnalyzeState) (name itemPath : String) : AnalyzeState :=
  let st1 := if hasSub (jsToLower name) "src" then
    AnalyzeState.mk st.fileTypeCounts (st.srcPaths ++ [itemPath])
      st.examplePaths st.docsPaths else st
  let st2 := if hasSub (jsToLower name) "example" || hasSub (jsToLower name) "demo" then
    AnalyzeState.mk st1.fileTypeCounts st1.srcPaths
      (st1.examplePaths ++ [itemPath]) st1.docsPaths else st1
  if hasSub (jsToLower name) "docs" then
    AnalyzeState.mk st2.fileTypeCounts st2.srcPaths st2.examplePaths
      (st2.docsPaths ++ [itemPath])
  else st2

/-- The `for` loop over one directory listing (`repoManagement.ts` lines
73-119): count file extensions, expand interesting directories through `next`
(the one-level-shallower `exploreDirectory`), push suggestions after the
child recursion, and accumulate the tree items in iteration order. -/
def exploreEntries (next : String → AnalyzeState → List TreeItem × AnalyzeState)
    (dirPath : String) : List DirEntry → AnalyzeState →
    List TreeItem × AnalyzeState
  | [], st => ([], st)
  | item :: rest, st =>
    let itemPath := if dirPath ≠ "" then dirPath ++ "/" ++ item.name else item.name
    let st2 := if item.typ = "file" then
      AnalyzeState.mk (bumpCount st.fileTypeCounts (extnameJs item.name))
        st.srcPaths st.examplePaths st.docsPaths
    else st
    if shouldExpand item then
      let child := next itemPath st2
      let st4 := pushSuggestions child.2 item.name itemPath
      let tailRes := exploreEntries next dirPath rest st4
      (TreeItem.node item.name item.typ itemPath
          (if 0 < child.1.length then some child.1 else none) :: tailRes.1,
       tailRes.2)
    else
      let tailRes := exploreEntries next dirPath rest st2
      (TreeItem.node item.name item.typ itemPath none :: tailRes.1, tailRes.2)

/-- One level of `exploreDirectory` (`repoManagement.ts` lines 58-124): a
thrown fetch or non-array body contributes `([], st)` (the `catch` branch);
otherwise the entry loop runs. -/
def exploreStep (oracle : String → FetchResult)
    (next : String → AnalyzeState → List TreeItem × AnalyzeState)
    (dirPath : String) (st : AnalyzeState) : List TreeItem × AnalyzeState :=
  match oracle dirPath with
  | FetchResult.dir entries => exploreEntries next dirPath entries st
  | _ => ([], st)

/-- `exploreDirectory(dirPath, maxDepth)` with the depth made explicit:
`maxDepth <= 0` returns `[]` immediately and the recursion is entered with
`maxDepth - 1`. -/
def exploreDirectory (oracle : String → FetchResult) :
    Nat → String → AnalyzeState → List TreeItem × AnalyzeState
  | 0, _, st => ([], st)
  | d + 1, dirPath, st => exploreStep oracle (exploreDirectory oracle d) dirPath st

/-- `analyzeRepository` runs `exploreDirectory("")` at the default depth
budget 2 over the empty accumulators (`repoManagement.ts` lines 126, 58-61)
and returns the accumulated state. -/
def analyzeRepositoryState (oracle : String → FetchResult) : AnalyzeState :=
  (exploreDirectory oracle 2 "" initAnalyzeState).2

/-- The file-extension keys the traversal encounters, in traversal order: the
extension of every file entry of every listing the analyzer fetches, at any
depth (the specification-side description of what `fileTypeCounts`
tallies). -/
def encounteredExts (oracle : String → FetchResult) :
    Nat → String → List String
  | 0, _ => []
  | d + 1, dirPath =>
    match oracle dirPath with
    | FetchResult.dir entries =>
      entries.flatMap (fun item =>
        let itemPath := if dirPath ≠ "" then dirPath ++ "/" ++ item.name
          else item.name
        (if item.typ = "file" then [extnameJs item.name] else []) ++
        (if shouldExpand item then encounteredExts oracle d itemPath else []))
    | _ => []

/-! ### Registry add — the `add-repository` tool (`repoManagement.ts`) -/

/-- The optional separate docs source of a registry entry (`shared.ts`
`RepoConfig.docs`). -/
structure DocsSource where
  repo : String
  branch : String
  paths : List String
deriving DecidableEq, Repr

/-- One registry entry (`shared.ts` `RepoConfig`). -/
structure RepoConfig where
  name : String
  description : String
  github : String
  repo : String
  mainBranch : String
  srcPaths : List String
  examplePaths : List String
  docs : Option DocsSource
deriving DecidableEq, Repr

/-- The arguments of the `add-repository` tool (`repoManagement.ts` lines
264-306); `none` models an omitted optional argument. -/
structure AddArgs where
  key : String
  name : String
  description : String
  repo : String
  mainBranch : String
  srcPaths : List String
  examplePaths : List String
  docsRepo : Option String
  docsBranch : Option String
  docsPaths : Option (List String)
deriving DecidableEq, Repr

/-- JS `a || b` on an optional string: `undefined` and `""` both fall back. -/
def jsOrElse (o : Option String) (dflt : String) : String :=
  match o with
  | some s => if s = "" then dflt else s
  | none => dflt

/-- Construction of the `newRepo` object (`repoManagement.ts` lines 326-343):
the docs block is attached only when `docsPaths` is provided and non-empty. -/
def buildNewRepo (a : AddArgs) : RepoConfig :=
  let base := RepoConfig.mk a.name a.description
    ("https://github.com/" ++ a.repo) a.repo a.mainBranch a.srcPaths
    a.examplePaths none
  match a.docsPaths with
  | some ps =>
    if 0 < ps.length then
      RepoConfig.mk base.name base.description base.github base.repo
        base.mainBranch base.srcPaths base.examplePaths
        (some (DocsSource.mk (jsOrElse a.docsRepo a.repo)
          (jsOrElse a.docsBranch a.mainBranch) ps))
    else base
  | none => base

/-- The two outcomes of `add-repository` the claim distinguishes: the
duplicate-key conflict reply (no write) and the success reply. -/
inductive AddReply where
  | conflict
  | added
deriving DecidableEq, Repr

/-- The `add-repository` handler (`repoManagement.ts` lines 307-394) as a
state transition on the persisted registry document: a present key returns
the conflict reply without touching the document; an absent key builds
`{...currentRepoData, [key]: newRepo}` (spread preserves insertion order and
appends the new key) and overwrites the whole document with it.  The reply
texts are presentation only and are not modelled beyond the two cases. -/
def addRepositoryTool (registry : List (String × RepoConfig)) (a : AddArgs) :
    AddReply × List (String × RepoConfig) :=
  if (lookupRec registry a.key).isSome then (AddReply.conflict, registry)
  else (AddReply.added, registry ++ [(a.key, buildNewRepo a)])

/-! ### Base64 and UTF-8 — `decodeGitHubContent` (shared.ts)

`decodeGitHubContent(content)` is `Buffer.from(content, "base64").toString("utf-8")`.
Node's base64 decoder is forgiving: characters outside the (standard or
URL-safe) alphabet, including `=`, are skipped, and leftover bits of an
incomplete trailing group are dropped; it never throws.  `toString("utf-8")`
replaces malformed sequences with U+FFFD and never throws either. -/

/-- The 6-bit value of one base64 alphabet character (standard alphabet plus
the URL-safe `-` and `_`, both accepted by Node); `none` for every other
character, which the decoder skips. -/
def sextet (c : Char) : Option Nat :=
  if 'A' ≤ c ∧ c ≤ 'Z' then some (c.toNat - 65)
  else if 'a' ≤ c ∧ c ≤ 'z' then some (c.toNat - 97 + 26)
  else if '0' ≤ c ∧ c ≤ '9' then some (c.toNat - 48 + 52)
  else if c = '+' ∨ c = '-' then some 62
  else if c = '/' ∨ c = '_' then some 63
  else none

/-- Reassemble bytes from 6-bit groups: full groups of four give three bytes;
a trailing group of three gives two, of two gives one, and a single leftover
sextet (or nothing) gives none. -/
def sextetsToBytes : List Nat → List Nat
  | a :: b :: c :: d :: rest =>
    (a * 4 + b / 16) :: ((b % 16) * 16 + c / 4) :: ((c % 4) * 64 + d) ::
      sextetsToBytes rest
  | [a, b, c] => [a * 4 + b / 16, (b % 16) * 16 + c / 4]
  | [a, b] => [a * 4 + b / 16]
  | _ => []

/-- UTF-8 encoding of one scalar value (every Lean `Char` is a valid scalar
value). -/
def utf8EncodeChar (c : Char) : List Nat :=
  let n := c.toNat
  if n < 128 then [n]
  else if n < 2048 then [192 + n / 64, 128 + n % 64]
  else if n < 65536 then
    [224 + n / 4096, 128 + (n / 64) % 64, 128 + n % 64]
  else
    [240 + n / 262144, 128 + (n / 4096) % 64, 128 + (n / 64) % 64, 128 + n % 64]

/-- UTF-8 encoding of a whole string's scalar values. -/
def utf8Encode (s : String) : List Nat :=
  s.data.flatMap utf8EncodeChar

/-- A UTF-8 continuation byte. -/
def isCont (b : Nat) : Bool := 128 ≤ b && b ≤ 191

/-- The admissible second byte after a three-byte leader (excludes overlong
forms and surrogates, as WHATWG/Node decoding does). -/
def cont2Ok (b c : Nat) : Bool :=
  if b = 224 then 160 ≤ c && c ≤ 191
  else if b = 237 then 128 ≤ c && c ≤ 159
  else isCont c

/-- The admissible second byte after a four-byte leader. -/
def cont3Ok (b c : Nat) : Bool :=
  if b = 240 then 144 ≤ c && c ≤ 191
  else if b = 244 then 128 ≤ c && c ≤ 143
  else isCont c

/-- One decoding step at leading byte `b` with following bytes `rest`: the
character produced (U+FFFD on malformed input) and how many bytes of `rest`
the sequence consumed beyond `b`. -/
def utf8Step (b : Nat) (rest : List Nat) : Char × Nat :=
  if b < 128 then (Char.ofNat b, 0)
  else if 194 ≤ b ∧ b ≤ 223 then
    match rest with
    | c :: _ =>
      if isCont c then (Char.ofNat ((b - 192) * 64 + (c - 128)), 1)
      else ('�', 0)
    | [] => ('�', 0)
  else if 224 ≤ b ∧ b ≤ 239 then
    match rest with
    | c :: d :: _ =>
      if cont2Ok b c ∧ isCont d then
        (Char.ofNat ((b - 224) * 4096 + (c - 128) * 64 + (d - 128)), 2)
      else ('�', 0)
    | _ => ('�', 0)
  else if 240 ≤ b ∧ b ≤ 244 then
    match rest with
    | c :: d :: e :: _ =>
      if cont3Ok b c ∧ isCont d ∧ isCont e then
        (Char.ofNat ((b - 240) * 262144 + (c - 128) * 4096 + (d - 128) * 64 +
          (e - 128)), 3)
      else ('�', 0)
    | _ => ('�', 0)
  else ('�', 0)

/-- UTF-8 decoding with U+FFFD replacement on malformed input, the semantics
of `buffer.toString("utf-8")`: repeatedly take one `utf8Step`. -/
def utf8Decode : List Nat → List Char
  | [] => []
  | b :: rest =>
    (utf8Step b rest).1 :: utf8Decode (rest.drop (utf8Step b rest).2)
termination_by l => l.length
decreasing_by simp [List.length_drop]; omega

/-- `decodeGitHubContent(content)` (`src/unnamed/part_003` lines 477-479):
Node-lenient base64 (skip non-alphabet characters, drop leftover bits), then
UTF-8 with replacement.  A total function — it never fails. -/
def decodeGitHubContent (content : String) : String :=
  String.mk (utf8Decode (sextetsToBytes (content.data.filterMap sextet)))

/-- The standard base64 alphabet character of a 6-bit value. -/
def b64Char (v : Nat) : Char :=
  "ABCDEFGHIJKLMNOPQRSTUVWXYZabcdefghijklmnopqrstuvwxyz0123456789+/".data.getD v '='

/-- Standard base64 encoding of a byte list, three bytes per four characters
with `=` padding. -/
def b64EncodeBytes : List Nat → List Char
  | x :: y :: z :: rest =>
    b64Char (x / 4) :: b64Char ((x % 4) * 16 + y / 16) ::
      b64Char ((y % 16) * 4 + z / 64) :: b64Char (z % 64) :: b64EncodeBytes rest
  | [x, y] => [b64Char (x / 4), b64Char ((x % 4) * 16 + y / 16),
      b64Char ((y % 16) * 4), '=']
  | [x] => [b64Char (x / 4), b64Char ((x % 4) * 16), '=', '=']
  | [] => []

/-- `base64Encode(text)`: standard base64 of the UTF-8 bytes of `text` (what
`Buffer.from(text, "utf-8").toString("base64")` produces). -/
def base64Encode (s : String) : String :=
  String.mk (b64EncodeBytes (utf8Encode s))

/-- Modelled from the spec: a strict base64 decoder that fails (`none`,
the spec's `DecodeError`) whenever the input is not valid base64 —
four-character groups over the alphabet with `=` padding only at the end.
The source has no such decoder (its decode is forgiving); this definition is
the specification-side comparison point for the error-handling claim. -/
def strictB64Groups : List Char → Option (List Nat)
  | [] => some []
  | a :: b :: c :: d :: rest =>
    match sextet a, sextet b with
    | some va, some vb =>
      if c = '=' ∧ d = '=' ∧ rest = [] then some [va * 4 + vb / 16]
      else
        match sextet c with
        | some vc =>
          if d = '=' ∧ rest = [] then
            some [va * 4 + vb / 16, (vb % 16) * 16 + vc / 4]
          else
            match sextet d with
            | some vd =>
              match strictB64Groups rest with
              | some bs =>
                some ((va * 4 + vb / 16) :: ((vb % 16) * 16 + vc / 4) ::
                  ((vc % 4) * 64 + vd) :: bs)
              | none => none
            | none => none
        | none => none
    | _, _ => none
  | _ => none

/-- Strict (spec-side) base64 decoding of a string. -/
def strictBase64Decode (s : String) : Option (List Nat) :=
  strictB64Groups s.data

/-! ## Theorems

General lemmas about the JS-object model, then the section indexer, the
search engines, the enumerator, the analyzer, the gateway, the registry and
the codec, each followed by the claim theorems they support. -/

theorem lookupRec_map_keep {α : Type} (m : List (String × α)) (k : String)
    (v : α) (key : String) (h : k ≠ key) :
    lookupRec (m.map (fun p => if p.1 = k then (p.1, v) else p)) key =
      lookupRec m key := by
  induction m with
  | nil => rfl
  | cons p rest ih =>
    by_cases hp : p.1 = k
    · rw [List.map_cons, if_pos hp]
      have hk : ¬ p.1 = key := by rw [hp]; exact h
      show (if p.1 = key then some v else _) = _
      rw [if_neg hk]
      show _ = (if p.1 = key then some p.2 else _)
      rw [if_neg hk, ih]
    · rw [List.map_cons, if_neg hp]
      show (if p.1 = key then some p.2 else _) =
        (if p.1 = key then some p.2 else _)
      by_cases hq : p.1 = key
      · rw [if_pos hq, if_pos hq]
      · rw [if_neg hq, if_neg hq, ih]

theorem lookupRec_map_hit {α : Type} (m : List (String × α)) (k : String)
    (v : α) (h : m.any (fun p => p.1 = k)) :
    lookupRec (m.map (fun p => if p.1 = k then (p.1, v) else p)) k =
      some v := by
  induction m with
  | nil => simp at h
  | cons p rest ih =>
    by_cases hp : p.1 = k
    · rw [List.map_cons, if_pos hp]
      show (if p.1 = k then some v else _) = _
      rw [if_pos hp]
    · have hrest : rest.any (fun p => p.1 = k) := by
        simp [List.any_cons, hp] at h
        simpa using h
      rw [List.map_cons, if_neg hp]
      show (if p.1 = k then some p.2 else _) = _
      rw [if_neg hp, ih hrest]

theorem lookupRec_append_one {α : Type} (m : List (String × α)) (k : String)
    (v : α) (key : String) :
    lookupRec (m ++ [(k, v)]) key =
      match lookupRec m key with
      | some w => some w
      | none => if k = key then some v else none := by
  induction m with
  | nil => rfl
  | cons p rest ih =>
    by_cases hp : p.1 = key
    · simp [lookupRec, hp]
    · simp [lookupRec, hp, ih]

theorem lookupRec_none_of_not_any {α : Type} (m : List (String × α))
    (key : String) (h : ¬ m.any (fun p => p.1 = key)) :
    lookupRec m key = none := by
  induction m with
  | nil => rfl
  | cons p rest ih =>
    simp [List.any_cons] at h
    simp [lookupRec, h.1, ih (by simpa using h.2)]

theorem lookupRec_recordSet {α : Type} (m : List (String × α)) (k : String)
    (v : α) (key : String) :
    lookupRec (recordSet m k v) key =
      if k = key then some v else lookupRec m key := by
  unfold recordSet
  by_cases hany : m.any (fun p => p.1 = k)
  · by_cases hk : k = key
    · subst hk
      simp [hany, lookupRec_map_hit m k v hany]
    · simp [hany, hk, lookupRec_map_keep m k v key hk]
  · by_cases hk : k = key
    · subst hk
      have := lookupRec_none_of_not_any m k hany
      simp [hany, lookupRec_append_one, this]
    · simp [hany, lookupRec_append_one, hk]
      cases lookupRec m key <;> simp [hk]

theorem jsToLower_ne_empty (s : String) (h : s ≠ "") : jsToLower s ≠ "" := by
  intro hc
  apply h
  have hdata : s.data.map jsCharToLower = [] := congrArg String.data hc
  have : s.data = [] := by
    cases hs : s.data with
    | nil => rfl
    | cons c cs => rw [hs] at hdata; simp at hdata
  cases s
  simp_all

theorem lookupRec_saveSection (secs : List (String × String)) (name : String)
    (acc : List String) (key : String) :
    lookupRec (saveSection secs name acc) key =
      if name ≠ "" ∧ acc ≠ [] ∧ jsToLower name = key then
        some (joinLines acc.reverse)
      else lookupRec secs key := by
  unfold saveSection
  by_cases h1 : name ≠ ""
  · by_cases h2 : acc ≠ []
    · rw [if_pos ⟨h1, h2⟩, lookupRec_recordSet]
      by_cases h3 : jsToLower name = key
      · simp [h1, h2, h3]
      · simp [h1, h2, h3]
    · simp [h2]
  · simp [h1]

theorem sectionsGo_lookup (k : String) (hk : k ≠ "") :
    ∀ (ls : List String) (name : String) (acc : List String)
      (secs : List (String × String)), (name ≠ "" → acc ≠ []) →
      lookupRec (sectionsGo ls name acc secs) k =
        (match lastSectionSlice k ls with
         | some s => some (joinLines s)
         | none =>
           if name ≠ "" ∧ jsToLower name = k then
             some (joinLines (acc.reverse ++
               ls.takeWhile (fun l => ¬ isHeadingLine l)))
           else lookupRec secs k) := by
  intro ls
  induction ls with
  | nil =>
    intro name acc secs hna
    show lookupRec (saveSection secs name acc) k = _
    rw [lookupRec_saveSection]
    simp only [lastSectionSlice, List.takeWhile_nil, List.append_nil]
    by_cases h1 : name ≠ ""
    · have h2 : acc ≠ [] := hna h1
      by_cases h3 : jsToLower name = k
      · rw [if_pos ⟨h1, h2, h3⟩, if_pos ⟨h1, h3⟩]
      · rw [if_neg (by simp [h3]), if_neg (by simp [h3])]
    · simp at h1
      rw [if_neg (by simp [h1]), if_neg (by simp [h1])]
  | cons line rest ih =>
    intro name acc secs hna
    cases hline : headingTitleRaw line with
    | some raw =>
      have hstep : sectionsGo (line :: rest) name acc secs =
          sectionsGo rest (jsTrim raw) [line] (saveSection secs name acc) := by
        simp [sectionsGo, hline]
      rw [hstep, ih (jsTrim raw) [line] (saveSection secs name acc) (fun _ => by simp)]
      have hkey : headingKey line = some (jsToLower (jsTrim raw)) := by
        simp [headingKey, hline]
      have hheads : isHeadingLine line = true := by
        simp [isHeadingLine, hline]
      cases hslice : lastSectionSlice k rest with
      | some s =>
        simp only [lastSectionSlice, hslice]
      | none =>
        simp only [lastSectionSlice, hslice]
        by_cases hcond : jsToLower (jsTrim raw) = k
        · have hraw : jsTrim raw ≠ "" := by
            intro hc
            apply hk
            rw [← hcond, hc]
            rfl
          rw [if_pos ⟨hraw, hcond⟩, if_pos (by rw [hkey, hcond])]
          simp
        · rw [if_neg (by simp [hcond]), if_neg (by
            rw [hkey]; intro hc; exact hcond (by injection hc))]
          rw [lookupRec_saveSection]
          have htw : (line :: rest).takeWhile (fun l => ¬ isHeadingLine l) =
              ([] : List String) := by
            simp [List.takeWhile_cons, hheads]
          rw [htw, List.append_nil]
          by_cases h1 : name ≠ ""
          · have h2 : acc ≠ [] := hna h1
            by_cases h3 : jsToLower name = k
            · rw [if_pos ⟨h1, h2, h3⟩, if_pos ⟨h1, h3⟩]
            · rw [if_neg (by simp [h3]), if_neg (by simp [h3])]
          · simp at h1
            rw [if_neg (by simp [h1]), if_neg (by simp [h1])]
    | none =>
      have hstep : sectionsGo (line :: rest) name acc secs =
          sectionsGo rest name (line :: acc) secs := by
        simp [sectionsGo, hline]
      rw [hstep, ih name (line :: acc) secs (fun _ => by simp)]
      have hkey : headingKey line = none := by simp [headingKey, hline]
      have hheads : isHeadingLine line = false := by
        simp [isHeadingLine, hline]
      cases hslice : lastSectionSlice k rest with
      | some s =>
        simp only [lastSectionSlice, hslice]
      | none =>
        simp only [lastSectionSlice, hslice, hkey]
        simp only [List.takeWhile_cons, hheads]
        by_cases h1 : name ≠ "" ∧ jsToLower name = k
        · rw [if_pos h1, if_pos h1]
          simp
        · rw [if_neg h1, if_neg h1]
          simp [hkey]

theorem sectionsGo_lookup_empty_key :
    ∀ (ls : List String) (name : String) (acc : List String)
      (secs : List (String × String)), lookupRec secs "" = none →
      lookupRec (sectionsGo ls name acc secs) "" = none := by
  intro ls
  induction ls with
  | nil =>
    intro name acc secs hs
    show lookupRec (saveSection secs name acc) "" = none
    rw [lookupRec_saveSection]
    by_cases h : name ≠ "" ∧ acc ≠ [] ∧ jsToLower name = ""
    · exact absurd h.2.2 (jsToLower_ne_empty name h.1)
    · rw [if_neg h]; exact hs
  | cons line rest ih =>
    intro name acc secs hs
    cases hline : headingTitleRaw line with
    | some raw =>
      have hstep : sectionsGo (line :: rest) name acc secs =
          sectionsGo rest (jsTrim raw) [line] (saveSection secs name acc) := by
        simp [sectionsGo, hline]
      rw [hstep]
      apply ih
      rw [lookupRec_saveSection]
      by_cases h : name ≠ "" ∧ acc ≠ [] ∧ jsToLower name = ""
      · exact absurd h.2.2 (jsToLower_ne_empty name h.1)
      · rw [if_neg h]; exact hs
    | none =>
      have hstep : sectionsGo (line :: rest) name acc secs =
          sectionsGo rest name (line :: acc) secs := by
        simp [sectionsGo, hline]
      rw [hstep]
      exact ih name (line :: acc) secs hs

theorem lastSectionSlice_none_of_no_key (k : String) :
    ∀ ls : List String,
      (∀ j, j < ls.length → headingKey (ls.getD j "") ≠ some k) →
      lastSectionSlice k ls = none := by
  intro ls
  induction ls with
  | nil => intro _; rfl
  | cons line rest ih =>
    intro h
    have h0 : headingKey line ≠ some k := by
      have := h 0 (by simp)
      simpa using this
    have hrec : lastSectionSlice k rest = none := by
      apply ih
      intro j hj
      have := h (j + 1) (by simpa using hj)
      simpa using this
    simp [lastSectionSlice, hrec, h0]

theorem lastSectionSlice_of_last_occurrence (k : String) :
    ∀ (ls : List String) (i : Nat), i < ls.length →
      headingKey (ls.getD i "") = some k →
      (∀ j, j < ls.length → i < j → headingKey (ls.getD j "") ≠ some k) →
      lastSectionSlice k ls =
        some (ls.getD i "" ::
          (ls.drop (i + 1)).takeWhile (fun l => ¬ isHeadingLine l)) := by
  intro ls
  induction ls with
  | nil => intro i hi; exact absurd hi (by simp)
  | cons line rest ih =>
    intro i hi hkey hlater
    cases i with
    | zero =>
      have hrest : lastSectionSlice k rest = none := by
        apply lastSectionSlice_none_of_no_key
        intro j hj
        have := hlater (j + 1) (by simpa using hj) (Nat.succ_pos j)
        simpa using this
      have h0 : headingKey line = some k := by simpa using hkey
      simp [lastSectionSlice, hrest, h0]
    | succ i' =>
      have hkey' : headingKey (rest.getD i' "") = some k := by simpa using hkey
      have hlater' : ∀ j, j < rest.length → i' < j →
          headingKey (rest.getD j "") ≠ some k := by
        intro j hj hij
        have := hlater (j + 1) (by simpa using hj) (by omega)
        simpa using this
      have hi' : i' < rest.length := by simpa using hi
      have hrec := ih i' hi' hkey' hlater'
      simp [lastSectionSlice, hrec]

theorem leadsWith_append (p t : List Char) : leadsWith (p ++ t) p = true := by
  induction p with
  | nil => cases t <;> rfl
  | cons c cs ih => simp [leadsWith, ih]

theorem joinLines_leadsWith (x : String) (xs : List String) :
    leadsWith (joinLines (x :: xs)).data x.data = true := by
  cases xs with
  | nil =>
    have : (joinLines [x]).data = x.data ++ [] := by simp [joinLines]
    rw [this]; exact leadsWith_append x.data []
  | cons y ys =>
    have : (joinLines (x :: y :: ys)).data =
        x.data ++ ("\n" ++ joinLines (y :: ys)).data := by
      simp [joinLines]
    rw [this]; exact leadsWith_append x.data _

/-- C2 counterexample: `"#  "` (one hash, two spaces) matches the heading
regexp with captured text `" "`, whose trimmed lower-cased text is `""`; the
section is never saved (JS truthiness of the empty name) so the lookup the
claim promises returns nothing. -/
theorem extractSections_empty_title_counterexample :
    splitLines "#  " = ["#  "] ∧
    headingKey "#  " = some "" ∧
    lookupRec (extractMarkdownSections "#  ") "" = none := by
  refine ⟨by decide, by decide, by decide⟩

/-- C2 (amended): for every heading line whose trimmed title is non-empty,
looking the produced mapping up by the heading's lower-cased (trimmed) text
returns exactly the section of the **last** heading with that key — the lines
from that heading up to the next heading-shaped line — and that body begins
with that last occurrence's exact heading line. -/
theorem extractSections_lookup_last_heading (content : String) (i : Nat)
    (k : String) (hi : i < (splitLines content).length)
    (hkey : headingKey ((splitLines content).getD i "") = some k)
    (hk : k ≠ "")
    (hlast : ∀ j, j < (splitLines content).length → i < j →
      headingKey ((splitLines content).getD j "") ≠ some k) :
    lookupRec (extractMarkdownSections content) k =
      some (joinLines ((splitLines content).getD i "" ::
        ((splitLines content).drop (i + 1)).takeWhile
          (fun l => ¬ isHeadingLine l))) ∧
    ∀ body, lookupRec (extractMarkdownSections content) k = some body →
      leadsWith body.data ((splitLines content).getD i "").data = true := by
  have hslice := lastSectionSlice_of_last_occurrence k (splitLines content) i
    hi hkey hlast
  have hmain : lookupRec (extractMarkdownSections content) k =
      some (joinLines ((splitLines content).getD i "" ::
        ((splitLines content).drop (i + 1)).takeWhile
          (fun l => ¬ isHeadingLine l))) := by
    show lookupRec (sectionsGo (splitLines content) "" [] []) k = _
    rw [sectionsGo_lookup k hk (splitLines content) "" [] [] (by intro h; simp at h)]
    rw [hslice]
  refine ⟨hmain, ?_⟩
  intro body hbody
  rw [hmain] at hbody
  have : body = joinLines ((splitLines content).getD i "" ::
      ((splitLines content).drop (i + 1)).takeWhile
        (fun l => ¬ isHeadingLine l)) := by
    injection hbody.symm
  rw [this]
  exact joinLines_leadsWith _ _

theorem extractSections_lookup_last_heading_witness :
    lookupRec (extractMarkdownSections "# A\nx\n## a\ny") "a" =
      some (joinLines ["## a", "y"]) ∧
    leadsWith (joinLines ["## a", "y"]).data ("## a").data = true := by
  have h := extractSections_lookup_last_heading "# A\nx\n## a\ny" 2 "a"
    (by decide) (by decide) (by decide) (by decide)
  refine ⟨?_, ?_⟩
  · have := h.1
    simpa using this
  · exact h.2 (joinLines ["## a", "y"]) (by simpa using h.1)

theorem mem_collapseWsAux (c : Char) :
    ∀ (b : Bool) (cs : List Char), c ∈ collapseWsAux b cs →
      c = '-' ∨ (c ∈ cs ∧ isJsSpace c = false) := by
  intro b cs
  induction cs generalizing b with
  | nil => intro h; simp [collapseWsAux] at h
  | cons d ds ih =>
    intro h
    by_cases hd : isJsSpace d
    · cases b with
      | true =>
        simp [collapseWsAux, hd] at h
        rcases ih true h with h' | h'
        · exact Or.inl h'
        · exact Or.inr ⟨List.mem_cons_of_mem d h'.1, h'.2⟩
      | false =>
        simp [collapseWsAux, hd] at h
        rcases h with h | h
        · exact Or.inl h
        · rcases ih true h with h' | h'
          · exact Or.inl h'
          · exact Or.inr ⟨List.mem_cons_of_mem d h'.1, h'.2⟩
    · simp [collapseWsAux, hd] at h
      rcases h with h | h
      · subst h
        exact Or.inr ⟨List.mem_cons_self c ds, by simpa using hd⟩
      · rcases ih false h with h' | h'
        · exact Or.inl h'
        · exact Or.inr ⟨List.mem_cons_of_mem d h'.1, h'.2⟩

theorem jsCharToLower_fix_of_keep (c : Char) (hkeep : keepAnchorChar c = true)
    (hsp : isJsSpace c = false) : jsCharToLower c = c := by
  unfold jsCharToLower
  rw [if_neg]
  intro hAZ
  simp [keepAnchorChar, hsp] at hkeep
  rcases hkeep with (h | h) | h
  · exact absurd (le_trans h.1 hAZ.2) (by decide)
  · exact absurd (le_trans hAZ.1 h.2) (by decide)
  · subst h
    exact absurd hAZ.1 (by decide)

theorem jsToLower_anchorOf (t : String) :
    jsToLower (anchorOf t) = anchorOf t := by
  unfold jsToLower
  congr 1
  show (anchorOf t).data.map jsCharToLower = (anchorOf t).data
  have h : ∀ c ∈ (anchorOf t).data, jsCharToLower c = c := by
    intro c hc
    have hmem := mem_collapseWsAux c false _ hc
    rcases hmem with h | h
    · subst h; decide
    · have hkeep : keepAnchorChar c = true := List.of_mem_filter h.1
      exact jsCharToLower_fix_of_keep c hkeep h.2
  calc (anchorOf t).data.map jsCharToLower
      = (anchorOf t).data.map id := List.map_congr_left h
    _ = (anchorOf t).data := List.map_id _

/-- C3 counterexample: in `"# a b\nx\n# a-b\ny"`, the first heading's
lower-cased title `"a b"` differs from its derived anchor `"a-b"`, yet that
anchor IS a key of the section mapping (the second heading's), so `get-doc`
with it returns a section body instead of the fallback. -/
theorem anchor_is_a_key_counterexample :
    anchorOf (jsTrim "a b") = "a-b" ∧
    jsToLower (jsTrim "a b") ≠ "a-b" ∧
    lookupRec (extractMarkdownSections "# a b\nx\n# a-b\ny") "a-b" =
      some "# a-b\ny" ∧
    getDocSection "# a b\nx\n# a-b\ny" "a-b" =
      GetDocSectionResult.body "# a-b\ny" := by
  refine ⟨by decide, by decide, by decide, by decide⟩

/-- C3 (amended): a heading's derived anchor is absent from the section
mapping — and `get-doc` with it takes the available-sections fallback —
provided no heading of the document has that anchor as its lower-cased
trimmed title (the hypothesis instantiated at the heading itself gives the
claim's premise that its own lower-cased title differs from the anchor). -/
theorem anchor_not_a_key_amended (content : String) (i : Nat)
    (lv : Nat) (raw : String)
    (hi : i < (splitLines content).length)
    (hmatch : headingMatchLine ((splitLines content).getD i "") = some (lv, raw))
    (hnone : ∀ j, j < (splitLines content).length →
      headingKey ((splitLines content).getD j "") ≠
        some (anchorOf (jsTrim raw))) :
    SectionHeader.mk lv (jsTrim raw) (anchorOf (jsTrim raw)) ∈
      findSectionHeaders content ∧
    lookupRec (extractMarkdownSections content) (anchorOf (jsTrim raw)) =
      none ∧
    getDocSection content (anchorOf (jsTrim raw)) =
      GetDocSectionResult.fallback (findSectionHeaders content) := by
  have hmem : SectionHeader.mk lv (jsTrim raw) (anchorOf (jsTrim raw)) ∈
      findSectionHeaders content := by
    unfold findSectionHeaders
    rw [List.mem_filterMap]
    refine ⟨(splitLines content).getD i "", ?_, ?_⟩
    · rw [List.getD_eq_getElem _ _ hi]
      exact List.getElem_mem _
    · rw [hmatch]
      rfl
  have hlook : lookupRec (extractMarkdownSections content)
      (anchorOf (jsTrim raw)) = none := by
    by_cases ha : anchorOf (jsTrim raw) = ""
    · rw [ha]
      exact sectionsGo_lookup_empty_key (splitLines content) "" [] [] rfl
    · show lookupRec (sectionsGo (splitLines content) "" [] []) _ = none
      rw [sectionsGo_lookup (anchorOf (jsTrim raw)) ha (splitLines content)
        "" [] [] (by intro h; simp at h)]
      rw [lastSectionSlice_none_of_no_key _ _ hnone]
      simp [lookupRec]
  refine ⟨hmem, hlook, ?_⟩
  unfold getDocSection
  rw [jsToLower_anchorOf, hlook]

theorem anchor_not_a_key_amended_witness :
    (SectionHeader.mk 1 "a b" "a-b" ∈ findSectionHeaders "# a b\nx") ∧
    lookupRec (extractMarkdownSections "# a b\nx") "a-b" = none ∧
    getDocSection "# a b\nx" "a-b" =
      GetDocSectionResult.fallback (findSectionHeaders "# a b\nx") := by
  have h := anchor_not_a_key_amended "# a b\nx" 0 1 "a b"
    (by decide) (by decide) (by decide)
  refine ⟨by simpa using h.1, by simpa using h.2.1, by simpa using h.2.2⟩

/-- C7: `findFilesRecursively` returns `[]` immediately for every
`maxDepth ≤ 0`, whatever the remote content; and at positive depth one fetch
happens — a failed fetch or non-directory body yields `[]` without raising —
after which file entries are filtered in and a directory entry is recursed
into only when `maxDepth > 1`, at depth `maxDepth - 1` (depth-exhausted
directories are skipped). -/
theorem findFilesRecursively_claim (oracle : String → FetchResult)
    (fileFilter : String → String → Bool) (path : String) (maxDepth : Int) :
    (maxDepth ≤ 0 → findFilesRecursively oracle fileFilter maxDepth path = []) ∧
    (0 < maxDepth → findFilesRecursively oracle fileFilter maxDepth path =
      match oracle path with
      | FetchResult.dir entries =>
        entries.flatMap (fun item =>
          let itemPath := if path ≠ "" then path ++ "/" ++ item.name
            else item.name
          if item.typ = "file" then
            (if fileFilter item.name itemPath then [itemPath] else [])
          else if item.typ = "dir" && decide (1 < maxDepth) then
            findFilesRecursively oracle fileFilter (maxDepth - 1) itemPath
          else [])
      | _ => []) := by
  constructor
  · intro h
    unfold findFilesRecursively
    rw [if_pos h]
  · intro h
    have hd0 : maxDepth.toNat = (maxDepth - 1).toNat + 1 := by omega
    have hw : ∀ p, findFilesAux oracle fileFilter (maxDepth - 1).toNat p =
        findFilesRecursively oracle fileFilter (maxDepth - 1) p := by
      intro p
      unfold findFilesRecursively
      by_cases h1 : maxDepth - 1 ≤ 0
      · rw [if_pos h1]
        have h2 : (maxDepth - 1).toNat = 0 := by omega
        rw [h2]
        rfl
      · rw [if_neg h1]
    have hdec : decide (0 < (maxDepth - 1).toNat) = decide (1 < maxDepth) := by
      rw [decide_eq_decide]
      omega
    have hL : findFilesRecursively oracle fileFilter maxDepth path =
        findFilesStep oracle fileFilter (decide (0 < (maxDepth - 1).toNat))
          (findFilesAux oracle fileFilter (maxDepth - 1).toNat) path := by
      unfold findFilesRecursively
      rw [if_neg (by omega), hd0]
      rfl
    rw [hL]
    unfold findFilesStep
    cases oracle path with
    | dir entries => simp only [hdec, hw]
    | err => rfl
    | file => rfl

theorem findFilesRecursively_claim_witness :
    findFilesRecursively (fun _ => FetchResult.err) (fun _ _ => true) (-3) "x"
      = [] ∧
    findFilesRecursively
      (fun p => if p = "" then
          FetchResult.dir [DirEntry.mk "sub" "dir", DirEntry.mk "a.ts" "file"]
        else FetchResult.dir [DirEntry.mk "b.ts" "file"])
      (fun _ _ => true) 2 "" = ["sub/b.ts", "a.ts"] := by
  constructor
  · exact (findFilesRecursively_claim (fun _ => FetchResult.err)
      (fun _ _ => true) "x" (-3)).1 (by decide)
  · rw [(findFilesRecursively_claim _ _ "" 2).2 (by decide)]
    decide

theorem slice_as_gets {α : Type} [Inhabited α] (lines : List α) (a n : Nat)
    (h : a + n ≤ lines.length) :
    (lines.drop a).take n = (List.range n).map (fun t => lines.getD (a + t) default) := by
  apply List.ext_getElem
  · simp
    omega
  · intro t h1 h2
    have ht : t < n := by simp at h2; omega
    have hat : a + t < lines.length := by omega
    simp [List.getElem_take, List.getElem_drop, List.getElem_range,
      List.getD_eq_getElem _ _ hat, List.getElem?_eq_getElem hat]

theorem filterMap_range_window {α : Type} (f : Nat → α) :
    ∀ (m a b : Nat),
      (List.range m).filterMap
        (fun j => if a ≤ j ∧ j ≤ b then some (f j) else none) =
      (List.range (min m (b + 1) - a)).map (fun t => f (a + t)) := by
  intro m
  induction m with
  | zero => intro a b; simp
  | succ m ih =>
    intro a b
    rw [List.range_succ, List.filterMap_append]
    rw [ih a b]
    by_cases hc : a ≤ m ∧ m ≤ b
    · have h1 : min (m + 1) (b + 1) - a = (min m (b + 1) - a) + 1 := by omega
      rw [h1, List.range_succ, List.map_append]
      have h2 : min m (b + 1) - a = m - a := by omega
      have h3 : a + (m - a) = m := by omega
      simp [hc, h2, h3]
    · have h1 : min (m + 1) (b + 1) - a = min m (b + 1) - a := by omega
      rw [h1]
      simp [hc]

theorem ctxSlice_eq_specWindow (lines : List String) (i r : Nat)
    (hi : i < lines.length) :
    ctxSlice lines i r = joinLines (specWindow lines i r) := by
  unfold ctxSlice specWindow
  show joinLines ((lines.drop (i - r)).take
    (min (lines.length - 1) (i + r) + 1 - (i - r))) = _
  rw [filterMap_range_window (fun j => lines.getD j "") lines.length (i - r) (i + r)]
  rw [slice_as_gets lines (i - r)
    (min (lines.length - 1) (i + r) + 1 - (i - r)) (by omega)]
  have hn : min (lines.length - 1) (i + r) + 1 - (i - r) =
      min lines.length (i + r + 1) - (i - r) := by omega
  rw [hn]
  rfl

theorem leadsWith_iff (s p : List Char) :
    leadsWith s p = true ↔ ∃ t, s = p ++ t := by
  induction p generalizing s with
  | nil => simp [leadsWith]
  | cons d ds ih =>
    cases s with
    | nil =>
      simp [leadsWith]
    | cons c cs =>
      simp only [leadsWith, Bool.and_eq_true, decide_eq_true_eq]
      constructor
      · rintro ⟨hcd, hl⟩
        rcases (ih cs).mp hl with ⟨t, ht⟩
        exact ⟨t, by rw [hcd, ht]; rfl⟩
      · rintro ⟨t, ht⟩
        have hcd : c = d := by
          have := congrArg (fun l => l.head?) ht
          simpa using this
        have hcs : cs = ds ++ t := by
          have := congrArg List.tail ht
          simpa using this
        exact ⟨hcd, (ih cs).mpr ⟨t, hcs⟩⟩

theorem hasSubL_iff_parts (s sub : List Char) :
    hasSubL s sub = true ↔ ∃ pre post, s = pre ++ sub ++ post := by
  induction s with
  | nil =>
    simp only [hasSubL, List.isEmpty_iff]
    constructor
    · intro h
      exact ⟨[], [], by simp [h]⟩
    · rintro ⟨pre, post, hp⟩
      rcases List.append_eq_nil.mp (List.append_eq_nil.mp hp.symm).1 with ⟨_, h2⟩
      exact h2
  | cons c rest ih =>
    simp only [hasSubL, Bool.or_eq_true]
    constructor
    · rintro (h | h)
      · rcases (leadsWith_iff (c :: rest) sub).mp h with ⟨t, ht⟩
        exact ⟨[], t, by simpa using ht⟩
      · rcases ih.mp h with ⟨pre, post, hp⟩
        exact ⟨c :: pre, post, by simp [hp]⟩
    · rintro ⟨pre, post, hp⟩
      cases pre with
      | nil =>
        left
        exact (leadsWith_iff (c :: rest) sub).mpr ⟨post, by simpa using hp⟩
      | cons c' pre' =>
        right
        apply ih.mpr
        refine ⟨pre', post, ?_⟩
        have := congrArg List.tail hp
        simpa using this

theorem mem_splitLinesAux_parts :
    ∀ (cs acc : List Char) (l : String), l ∈ splitLinesAux cs acc →
      ∃ pre post, acc.reverse ++ cs = pre ++ l.data ++ post := by
  intro cs
  induction cs with
  | nil =>
    intro acc l hl
    simp [splitLinesAux] at hl
    refine ⟨[], [], ?_⟩
    rw [hl]
    simp
  | cons c cs' ih =>
    intro acc l hl
    by_cases hc : c = '\n'
    · simp [splitLinesAux, hc] at hl
      rcases hl with hl | hl
      · refine ⟨[], c :: cs', ?_⟩
        rw [hl]
        simp
      · rcases ih [] l hl with ⟨pre, post, hp⟩
        simp at hp
        refine ⟨acc.reverse ++ '\n' :: pre, post, ?_⟩
        rw [hc]
        simp [hp]
    · simp only [splitLinesAux, if_neg hc] at hl
      rcases ih (c :: acc) l hl with ⟨pre, post, hp⟩
      simp at hp
      refine ⟨pre, post, ?_⟩
      simpa using hp

theorem mem_splitLines_parts (s : String) (l : String)
    (h : l ∈ splitLines s) : ∃ pre post, s.data = pre ++ l.data ++ post := by
  have := mem_splitLinesAux_parts s.data [] l h
  simpa using this

theorem hasSub_content_of_line (content line q : String)
    (hline : line ∈ splitLines content)
    (h : hasSub (jsToLower line) q = true) :
    hasSub (jsToLower content) q = true := by
  rcases mem_splitLines_parts content line hline with ⟨pre, post, hp⟩
  rcases (hasSubL_iff_parts _ _).mp h with ⟨pre2, post2, hp2⟩
  apply (hasSubL_iff_parts _ _).mpr
  refine ⟨pre.map jsCharToLower ++ pre2, post2 ++ post.map jsCharToLower, ?_⟩
  show content.data.map jsCharToLower = _
  rw [hp]
  simp only [List.map_append]
  have hldata : (jsToLower line).data = line.data.map jsCharToLower := rfl
  rw [hldata] at hp2
  rw [hp2]
  simp

/-- C5 counterexample: in a five-line file where only line 3 matches,
`search-examples` yields a context of two lines before and after (the whole
file), not the one-line window the claim asserts for every keyword-search
operation. -/
theorem searchExamples_window_counterexample :
    searchExamplesFileMatches "a0\nb1\ncQd\nd3\ne4" "q" =
      ["Line 3:\na0\nb1\ncQd\nd3\ne4"] ∧
    specWindow (splitLines "a0\nb1\ncQd\nd3\ne4") 2 1 = ["b1", "cQd", "d3"] ∧
    "Line 3:\na0\nb1\ncQd\nd3\ne4" ≠
      "Line 3:\n" ++ joinLines ["b1", "cQd", "d3"] := by
  refine ⟨by decide, by decide, by decide⟩

/-- C5 (amended): every match of `search-docs` and of `search-source` carries
the matched line plus exactly one line before and one after (clamped), while
every match of `search-examples` carries two lines before and after
(clamped). -/
theorem searchContextWindows_amended (content query : String) (i : Nat)
    (hi : i < (splitLines content).length)
    (hm : hasSub (jsToLower ((splitLines content).getD i ""))
      (jsToLower query) = true) :
    ("Line " ++ toString (i + 1) ++ ": " ++
        joinLines (specWindow (splitLines content) i 1)) ∈
      searchDocFileMatches content query ∧
    ("Line " ++ toString (i + 1) ++ ": " ++
        joinLines (specWindow (splitLines content) i 1)) ∈
      searchSourceFileMatches content query ∧
    ("Line " ++ toString (i + 1) ++ ":\n" ++
        joinLines (specWindow (splitLines content) i 2)) ∈
      searchExamplesFileMatches content query := by
  have hmem1 : ("Line " ++ toString (i + 1) ++ ": " ++
      joinLines (specWindow (splitLines content) i 1)) ∈
      (List.range (splitLines content).length).filterMap (fun j =>
        if hasSub (jsToLower ((splitLines content).getD j ""))
            (jsToLower query) then
          some ("Line " ++ toString (j + 1) ++ ": " ++
            ctxSlice (splitLines content) j 1)
        else none) := by
    apply List.mem_filterMap.mpr
    refine ⟨i, List.mem_range.mpr hi, ?_⟩
    rw [if_pos hm, ctxSlice_eq_specWindow _ _ _ hi]
  have hguard : hasSub (jsToLower content) (jsToLower query) = true := by
    apply hasSub_content_of_line content ((splitLines content).getD i "")
      (jsToLower query) ?_ hm
    rw [List.getD_eq_getElem _ _ hi]
    exact List.getElem_mem _
  refine ⟨hmem1, hmem1, ?_⟩
  show _ ∈ searchExamplesFileMatches content query
  unfold searchExamplesFileMatches
  rw [if_pos hguard]
  apply List.mem_filterMap.mpr
  refine ⟨i, List.mem_range.mpr hi, ?_⟩
  rw [if_pos hm, ctxSlice_eq_specWindow _ _ _ hi]

theorem searchContextWindows_amended_witness :
    ("Line " ++ toString (1 + 1) ++ ": " ++
        joinLines (specWindow (splitLines "x\nfindMe\ny") 1 1)) ∈
      searchDocFileMatches "x\nfindMe\ny" "FINDME" ∧
    ("Line " ++ toString (1 + 1) ++ ": " ++
        joinLines (specWindow (splitLines "x\nfindMe\ny") 1 1)) ∈
      searchSourceFileMatches "x\nfindMe\ny" "FINDME" ∧
    ("Line " ++ toString (1 + 1) ++ ":\n" ++
        joinLines (specWindow (splitLines "x\nfindMe\ny") 1 2)) ∈
      searchExamplesFileMatches "x\nfindMe\ny" "FINDME" :=
  searchContextWindows_amended "x\nfindMe\ny" "FINDME" 1 (by decide) (by decide)

/-- C6 counterexample: with two configured search paths of 21 enumerated files
each, one `search-source` call fetches 40 candidate files — the 20-file cap is
per configured path, not per call. -/
theorem searchSource_per_call_counterexample :
    ((searchSourceRun (fun _ => none) "q"
      [List.replicate 21 "f", List.replicate 21 "g"]).1).length = 40 ∧
    20 < 40 := by
  refine ⟨by decide, by decide⟩

/-- C6 (amended): per configured search path, `search-source` fetches at most
20 candidate files and `search-examples` at most 15; per retained file,
`search-source` keeps at most 5 matches and `search-examples` at most 3; the
fetched files of a whole call are the per-path 20- and 15-file truncations
concatenated over every configured path. -/
theorem searchTruncation_amended (oracle : String → Option RemoteFile)
    (query : String) (enumerated : List (List String)) :
    (∀ fs ∈ enumerated, ((searchSourcePath oracle query fs).1).length ≤ 20 ∧
      ((searchExamplesPath oracle query fs).1).length ≤ 15) ∧
    (∀ pr ∈ (searchSourceRun oracle query enumerated).2, pr.2.length ≤ 5) ∧
    (∀ pr ∈ (searchExamplesRun oracle query enumerated).2, pr.2.length ≤ 3) ∧
    (searchSourceRun oracle query enumerated).1 =
      enumerated.flatMap (fun fs => fs.take 20) ∧
    (searchExamplesRun oracle query enumerated).1 =
      enumerated.flatMap (fun fs => fs.take 15) := by
  refine ⟨?_, ?_, ?_, rfl, rfl⟩
  · intro fs _
    exact ⟨List.length_take_le 20 fs, List.length_take_le 15 fs⟩
  · intro pr hpr
    rcases List.mem_flatMap.mp hpr with ⟨fs, _, hfs⟩
    rcases List.mem_filterMap.mp hfs with ⟨file, _, hfile⟩
    cases hoc : oracle file with
    | none => rw [hoc] at hfile; simp at hfile
    | some c =>
      rw [hoc] at hfile
      have hfile2 : (if c.typ = "file" ∧ c.encoding = "base64" then
          (if searchSourceFileMatches c.text query ≠ [] then
            some (file, (searchSourceFileMatches c.text query).take 5)
          else none) else none) = some pr := hfile
      by_cases hc : c.typ = "file" ∧ c.encoding = "base64"
      · rw [if_pos hc] at hfile2
        by_cases hm : searchSourceFileMatches c.text query ≠ []
        · rw [if_pos hm] at hfile2
          have hpr2 : pr = (file, (searchSourceFileMatches c.text query).take 5) := by
            injection hfile2.symm
          rw [hpr2]
          exact List.length_take_le 5 _
        · rw [if_neg hm] at hfile2; simp at hfile2
      · rw [if_neg hc] at hfile2; simp at hfile2
  · intro pr hpr
    rcases List.mem_flatMap.mp hpr with ⟨fs, _, hfs⟩
    rcases List.mem_filterMap.mp hfs with ⟨file, _, hfile⟩
    cases hoc : oracle file with
    | none => rw [hoc] at hfile; simp at hfile
    | some c =>
      rw [hoc] at hfile
      have hfile2 : (if c.typ = "file" ∧ c.encoding = "base64" then
          (if searchExamplesFileMatches c.text query ≠ [] then
            some (file, (searchExamplesFileMatches c.text query).take 3)
          else none) else none) = some pr := hfile
      by_cases hc : c.typ = "file" ∧ c.encoding = "base64"
      · rw [if_pos hc] at hfile2
        by_cases hm : searchExamplesFileMatches c.text query ≠ []
        · rw [if_pos hm] at hfile2
          have hpr2 : pr = (file, (searchExamplesFileMatches c.text query).take 3) := by
            injection hfile2.symm
          rw [hpr2]
          exact List.length_take_le 3 _
        · rw [if_neg hm] at hfile2; simp at hfile2
      · rw [if_neg hc] at hfile2; simp at hfile2

theorem searchTruncation_amended_witness :
    ((searchSourcePath (fun _ => none) "q" (List.replicate 30 "f")).1).length
      ≤ 20 ∧
    (searchSourceRun (fun _ => none) "q" [List.replicate 30 "f"]).1 =
      [List.replicate 30 "f"].flatMap (fun fs => fs.take 20) := by
  have h := searchTruncation_amended (fun _ => none) "q" [List.replicate 30 "f"]
  exact ⟨(h.1 (List.replicate 30 "f") (by simp)).1, h.2.2.2.1⟩

theorem hasSub_of_parts (s sub : String) (pre post : List Char)
    (h : s.data = pre ++ sub.data ++ post) : hasSub s sub = true :=
  (hasSubL_iff_parts s.data sub.data).mpr ⟨pre, post, h⟩

/-- C4 counterexample: a 403 with no rate-limit headers reports
`Remaining: null` — the `null` of `headers.get` interpolated verbatim — not
the `unknown` the claim asserts for absent remaining-quota metadata (only the
reset time falls back to `unknown`). -/
theorem rateLimit_remaining_null_counterexample :
    fetchGitHubContentModel (fun _ => "T") false
      (TransportResult.response
        (GitHubResponse.mk false 403 "Forbidden" none none FetchResult.file)) =
      Except.error ("Failed to fetch from GitHub: GitHub API rate limit exceeded. Remaining: null. Resets at: unknown. Consider adding a GitHub API key to config.json for higher rate limits") ∧
    hasSub "Failed to fetch from GitHub: GitHub API rate limit exceeded. Remaining: null. Resets at: unknown. Consider adding a GitHub API key to config.json for higher rate limits" "Remaining: null" = true ∧
    hasSub "Failed to fetch from GitHub: GitHub API rate limit exceeded. Remaining: null. Resets at: unknown. Consider adding a GitHub API key to config.json for higher rate limits" "Remaining: unknown" = false := by
  refine ⟨by rfl, by decide, by decide⟩

theorem append_chain5 {α : Type} (a1 a2 a3 a4 a5 p q r X : List α)
    (h : a1 ++ (a2 ++ (a3 ++ (a4 ++ a5))) = p ++ (q ++ r)) :
    a1 ++ (a2 ++ (a3 ++ (a4 ++ (a5 ++ X)))) = p ++ (q ++ (r ++ X)) := by
  have h2 := congrArg (fun l => l ++ X) h
  simpa [List.append_assoc] using h2

theorem append_chain5b {α : Type} (a1 a2 a3 a4 a5 p X : List α)
    (h : a1 ++ (a2 ++ (a3 ++ (a4 ++ a5))) = p) :
    a1 ++ (a2 ++ (a3 ++ (a4 ++ (a5 ++ X)))) = p ++ X := by
  have h2 := congrArg (fun l => l ++ X) h
  simpa [List.append_assoc] using h2

theorem rateLimitScenarioMsg_rateLimit (fmt : Option Int → String)
    (tail : String) :
    hasSub ("Error browsing repository: " ++ ("Failed to fetch from GitHub: " ++
        ("GitHub API rate limit exceeded. Remaining: " ++ "0" ++
          ". Resets at: " ++ fmt (some 1700000000000) ++ ". " ++ tail)))
      "rate limit" = true := by
  apply hasSub_of_parts _ _
    ("Error browsing repository: Failed to fetch from GitHub: GitHub API ").data
    ((" exceeded. Remaining: 0. Resets at: ").data ++
      ((fmt (some 1700000000000)).data ++ ((". ").data ++ tail.data)))
  have hstep := append_chain5
    ("Error browsing repository: ").data
    ("Failed to fetch from GitHub: ").data
    ("GitHub API rate limit exceeded. Remaining: ").data
    ("0").data
    (". Resets at: ").data
    ("Error browsing repository: Failed to fetch from GitHub: GitHub API ").data
    ("rate limit").data
    (" exceeded. Remaining: 0. Resets at: ").data
    ((fmt (some 1700000000000)).data ++ ((". ").data ++ tail.data))
    (by decide)
  simp only [String.data_append, List.append_assoc]
  exact hstep

theorem rateLimitScenarioMsg_fmt (fmt : Option Int → String) (tail : String) :
    hasSub ("Error browsing repository: " ++ ("Failed to fetch from GitHub: " ++
        ("GitHub API rate limit exceeded. Remaining: " ++ "0" ++
          ". Resets at: " ++ fmt (some 1700000000000) ++ ". " ++ tail)))
      (fmt (some 1700000000000)) = true := by
  apply hasSub_of_parts _ _
    ("Error browsing repository: Failed to fetch from GitHub: GitHub API rate limit exceeded. Remaining: 0. Resets at: ").data
    ((". ").data ++ tail.data)
  have hstep := append_chain5b
    ("Error browsing repository: ").data
    ("Failed to fetch from GitHub: ").data
    ("GitHub API rate limit exceeded. Remaining: ").data
    ("0").data
    (". Resets at: ").data
    ("Error browsing repository: Failed to fetch from GitHub: GitHub API rate limit exceeded. Remaining: 0. Resets at: ").data
    ((fmt (some 1700000000000)).data ++ ((". ").data ++ tail.data))
    (by decide)
  simp only [String.data_append, List.append_assoc]
  exact hstep

/-- C4 (amended): every 403 fails with the rate-limit error whose remaining
quota shows the header value when present and the literal `null` when absent,
and whose reset time is formatted (by the locale formatter `fmt`) from the
header when present and is `unknown` otherwise; in scenario C (`Remaining: 0`,
`Reset: 1700000000`) the `browse-repo` payload contains `rate limit` and the
reset time formatted from `1700000000` (formatted at its millisecond value
`1700000000000`). -/
theorem rateLimit403_amended (fmt : Option Int → String) (hasApiKey : Bool)
    (st : String) (rem rst : Option String) (body : FetchResult) :
    fetchGitHubContentModel fmt hasApiKey (TransportResult.response
        (GitHubResponse.mk false 403 st rem rst body)) =
      Except.error ("Failed to fetch from GitHub: " ++
        ("GitHub API rate limit exceeded. Remaining: " ++ jsShowNullable rem ++
          ". Resets at: " ++
          (match rst with
           | some t => fmt ((jsParseInt t).map (fun n => n * 1000))
           | none => "unknown") ++ ". " ++
          (if hasApiKey then "Authenticated"
           else "Consider adding a GitHub API key to config.json for higher rate limits"))) ∧
    browseRepoErrorText fmt hasApiKey (TransportResult.response
        (GitHubResponse.mk false 403 st (some "0") (some "1700000000") body)) =
      some ("Error browsing repository: " ++ ("Failed to fetch from GitHub: " ++
        ("GitHub API rate limit exceeded. Remaining: " ++ "0" ++
          ". Resets at: " ++ fmt (some 1700000000000) ++ ". " ++
          (if hasApiKey then "Authenticated"
           else "Consider adding a GitHub API key to config.json for higher rate limits")))) ∧
    hasSub ("Error browsing repository: " ++ ("Failed to fetch from GitHub: " ++
        ("GitHub API rate limit exceeded. Remaining: " ++ "0" ++
          ". Resets at: " ++ fmt (some 1700000000000) ++ ". " ++
          (if hasApiKey then "Authenticated"
           else "Consider adding a GitHub API key to config.json for higher rate limits"))))
      "rate limit" = true ∧
    hasSub ("Error browsing repository: " ++ ("Failed to fetch from GitHub: " ++
        ("GitHub API rate limit exceeded. Remaining: " ++ "0" ++
          ". Resets at: " ++ fmt (some 1700000000000) ++ ". " ++
          (if hasApiKey then "Authenticated"
           else "Consider adding a GitHub API key to config.json for higher rate limits"))))
      (fmt (some 1700000000000)) = true := by
  have hp : (jsParseInt "1700000000").map (fun n => n * 1000) =
      some 1700000000000 := by decide
  refine ⟨rfl, ?_, rateLimitScenarioMsg_rateLimit fmt _,
    rateLimitScenarioMsg_fmt fmt _⟩
  show some ("Error browsing repository: " ++ ("Failed to fetch from GitHub: " ++
    ("GitHub API rate limit exceeded. Remaining: " ++ jsShowNullable (some "0") ++
      ". Resets at: " ++ fmt ((jsParseInt "1700000000").map (fun n => n * 1000)) ++
      ". " ++
      (if hasApiKey then "Authenticated"
       else "Consider adding a GitHub API key to config.json for higher rate limits")))) = _
  rw [hp]
  rfl

/-- C1: `add-repository` with an already-present key replies Conflict and
leaves the persisted registry untouched (no write happens); with an absent key
it persists, by whole-document overwrite, exactly the old mapping extended
with the submitted entry, whose lookups agree with the old registry everywhere
else. -/
theorem addRepository_claim (registry : List (String × RepoConfig))
    (a : AddArgs) :
    ((lookupRec registry a.key).isSome →
      addRepositoryTool registry a = (AddReply.conflict, registry)) ∧
    (lookupRec registry a.key = none →
      addRepositoryTool registry a =
        (AddReply.added, registry ++ [(a.key, buildNewRepo a)]) ∧
      ∀ k, lookupRec (registry ++ [(a.key, buildNewRepo a)]) k =
        if k = a.key then some (buildNewRepo a) else lookupRec registry k) := by
  constructor
  · intro h
    unfold addRepositoryTool
    rw [if_pos h]
  · intro h
    constructor
    · unfold addRepositoryTool
      rw [if_neg (by simp [h])]
    · intro k
      rw [lookupRec_append_one]
      by_cases hk : k = a.key
      · subst hk
        rw [h, if_pos rfl]
      · rw [if_neg hk]
        cases hlk : lookupRec registry k with
        | some w => simp
        | none =>
          have : ¬ a.key = k := fun hc => hk hc.symm
          simp [this]

theorem addRepository_claim_witness :
    addRepositoryTool []
      (AddArgs.mk "zod" "Zod" "d" "colinhacks/zod" "main"
        ["packages/zod/src"] ["packages/docs/examples"] none none none) =
      (AddReply.added,
        [("zod", buildNewRepo (AddArgs.mk "zod" "Zod" "d" "colinhacks/zod"
          "main" ["packages/zod/src"] ["packages/docs/examples"]
          none none none))]) ∧
    addRepositoryTool
      [("zod", buildNewRepo (AddArgs.mk "zod" "Zod" "d" "colinhacks/zod"
        "main" ["packages/zod/src"] ["packages/docs/examples"] none none none))]
      (AddArgs.mk "zod" "Zod" "d" "colinhacks/zod" "main"
        ["packages/zod/src"] ["packages/docs/examples"] none none none) =
      (AddReply.conflict,
        [("zod", buildNewRepo (AddArgs.mk "zod" "Zod" "d" "colinhacks/zod"
          "main" ["packages/zod/src"] ["packages/docs/examples"]
          none none none))]) := by
  constructor
  · have h := (addRepository_claim []
      (AddArgs.mk "zod" "Zod" "d" "colinhacks/zod" "main"
        ["packages/zod/src"] ["packages/docs/examples"] none none none)).2
      (by rfl)
    simpa using h.1
  · exact (addRepository_claim _ _).1 (by rfl)

theorem lookupRec_bump_map_keep (m : List (String × Nat)) (k key : String)
    (h : k ≠ key) :
    lookupRec (m.map (fun p => if p.1 = k then (p.1, p.2 + 1) else p)) key =
      lookupRec m key := by
  induction m with
  | nil => rfl
  | cons p rest ih =>
    by_cases hp : p.1 = k
    · rw [List.map_cons, if_pos hp]
      have hkq : ¬ p.1 = key := by rw [hp]; exact h
      show (if p.1 = key then some (p.2 + 1) else _) = _
      rw [if_neg hkq]
      show _ = (if p.1 = key then some p.2 else _)
      rw [if_neg hkq, ih]
    · rw [List.map_cons, if_neg hp]
      show (if p.1 = key then some p.2 else _) =
        (if p.1 = key then some p.2 else _)
      by_cases hq : p.1 = key
      · rw [if_pos hq, if_pos hq]
      · rw [if_neg hq, if_neg hq, ih]

theorem lookupRec_bump_map_hit (m : List (String × Nat)) (k : String) :
    lookupRec (m.map (fun p => if p.1 = k then (p.1, p.2 + 1) else p)) k =
      (lookupRec m k).map (fun n => n + 1) := by
  induction m with
  | nil => rfl
  | cons p rest ih =>
    by_cases hp : p.1 = k
    · rw [List.map_cons, if_pos hp]
      show (if p.1 = k then some (p.2 + 1) else _) = _
      rw [if_pos hp]
      show _ = ((if p.1 = k then some p.2 else _).map _)
      rw [if_pos hp]
      rfl
    · rw [List.map_cons, if_neg hp]
      show (if p.1 = k then some p.2 else _) = _
      rw [if_neg hp]
      show _ = ((if p.1 = k then some p.2 else _).map _)
      rw [if_neg hp, ih]

theorem lookupRec_isSome_of_any (m : List (String × Nat)) (k : String)
    (h : m.any (fun p => p.1 = k)) : (lookupRec m k).isSome = true := by
  induction m with
  | nil => simp at h
  | cons p rest ih =>
    by_cases hp : p.1 = k
    · show (if p.1 = k then some p.2 else _).isSome = true
      rw [if_pos hp]
      rfl
    · have hrest : rest.any (fun p => p.1 = k) := by
        simp [List.any_cons, hp] at h
        simpa using h
      show (if p.1 = k then some p.2 else _).isSome = true
      rw [if_neg hp]
      exact ih hrest

theorem lookupRec_bumpCount (m : List (String × Nat)) (k key : String) :
    (lookupRec (bumpCount m k) key).getD 0 =
      (lookupRec m key).getD 0 + (if k = key then 1 else 0) := by
  unfold bumpCount
  by_cases hany : m.any (fun p => p.1 = k)
  · rw [if_pos hany]
    by_cases hk : k = key
    · subst hk
      rw [lookupRec_bump_map_hit, if_pos rfl]
      have hs := lookupRec_isSome_of_any m k hany
      cases hl : lookupRec m k with
      | none => rw [hl] at hs; simp at hs
      | some v => simp
    · rw [lookupRec_bump_map_keep m k key hk, if_neg hk]
      simp
  · rw [if_neg hany, lookupRec_append_one]
    by_cases hk : k = key
    · subst hk
      rw [lookupRec_none_of_not_any m k hany, if_pos rfl, if_pos rfl]
      simp
    · rw [if_neg hk]
      cases hl : lookupRec m key with
      | some w => simp [hk]
      | none => simp [hk]

theorem pushSuggestions_counts (st : AnalyzeState) (name itemPath : String) :
    (pushSuggestions st name itemPath).fileTypeCounts = st.fileTypeCounts := by
  unfold pushSuggestions
  by_cases h1 : hasSub (jsToLower name) "src"
  · by_cases h2 : hasSub (jsToLower name) "example" || hasSub (jsToLower name) "demo"
    · by_cases h3 : hasSub (jsToLower name) "docs" <;> simp [h1, h2, h3]
    · by_cases h3 : hasSub (jsToLower name) "docs" <;> simp [h1, h2, h3]
  · by_cases h2 : hasSub (jsToLower name) "example" || hasSub (jsToLower name) "demo"
    · by_cases h3 : hasSub (jsToLower name) "docs" <;> simp [h1, h2, h3]
    · by_cases h3 : hasSub (jsToLower name) "docs" <;> simp [h1, h2, h3]

theorem exploreEntries_counts (ext : String)
    (next : String → AnalyzeState → List TreeItem × AnalyzeState)
    (enc : String → List String) (dirPath : String)
    (hnext : ∀ p st, (lookupRec (next p st).2.fileTypeCounts ext).getD 0 =
      (lookupRec st.fileTypeCounts ext).getD 0 + (enc p).count ext) :
    ∀ (entries : List DirEntry) (st : AnalyzeState),
      (lookupRec (exploreEntries next dirPath entries st).2.fileTypeCounts
        ext).getD 0 =
      (lookupRec st.fileTypeCounts ext).getD 0 +
      (entries.flatMap (fun item =>
        (if item.typ = "file" then [extnameJs item.name] else []) ++
        (if shouldExpand item then
          enc (if dirPath ≠ "" then dirPath ++ "/" ++ item.name else item.name)
        else []))).count ext := by
  intro entries
  induction entries with
  | nil => intro st; simp [exploreEntries]
  | cons item rest ih =>
    intro st
    rw [List.flatMap_cons, List.count_append, List.count_append]
    set itemPath := if dirPath ≠ "" then dirPath ++ "/" ++ item.name
      else item.name with hip
    set st2 := if item.typ = "file" then
      AnalyzeState.mk (bumpCount st.fileTypeCounts (extnameJs item.name))
        st.srcPaths st.examplePaths st.docsPaths
      else st with hst2
    have hst2c : (lookupRec st2.fileTypeCounts ext).getD 0 =
        (lookupRec st.fileTypeCounts ext).getD 0 +
        ((if item.typ = "file" then [extnameJs item.name] else []).count ext) := by
      by_cases hf : item.typ = "file"
      · rw [hst2]
        simp only [if_pos hf]
        rw [lookupRec_bumpCount]
        by_cases he : extnameJs item.name = ext
        · simp [he, List.count_cons]
        · simp [he, List.count_cons]
      · rw [hst2]
        simp [hf]
    by_cases hex : shouldExpand item
    · have hunf : exploreEntries next dirPath (item :: rest) st =
          (TreeItem.node item.name item.typ itemPath
            (if 0 < (next itemPath st2).1.length then some (next itemPath st2).1
             else none) ::
            (exploreEntries next dirPath rest
              (pushSuggestions (next itemPath st2).2 item.name itemPath)).1,
           (exploreEntries next dirPath rest
             (pushSuggestions (next itemPath st2).2 item.name itemPath)).2) := by
        show exploreEntries next dirPath (item :: rest) st = _
        simp only [exploreEntries, hex, if_pos, ← hip, ← hst2]
      rw [hunf]
      show (lookupRec (exploreEntries next dirPath rest
        (pushSuggestions (next itemPath st2).2 item.name itemPath)).2.fileTypeCounts
          ext).getD 0 = _
      rw [ih]
      have hpc : (pushSuggestions (next itemPath st2).2 item.name
          itemPath).fileTypeCounts = (next itemPath st2).2.fileTypeCounts :=
        pushSuggestions_counts _ _ _
      rw [hpc, hnext itemPath st2, hst2c]
      simp [hex]
      omega
    · have hunf : exploreEntries next dirPath (item :: rest) st =
          (TreeItem.node item.name item.typ itemPath none ::
            (exploreEntries next dirPath rest st2).1,
           (exploreEntries next dirPath rest st2).2) := by
        show exploreEntries next dirPath (item :: rest) st = _
        simp only [exploreEntries, hex, ← hip, ← hst2]
        rfl
      rw [hunf]
      show (lookupRec (exploreEntries next dirPath rest st2).2.fileTypeCounts
        ext).getD 0 = _
      rw [ih, hst2c]
      simp [hex]
      omega

theorem exploreDirectory_counts (oracle : String → FetchResult) :
    ∀ (d : Nat) (p : String) (st : AnalyzeState) (ext : String),
      (lookupRec (exploreDirectory oracle d p st).2.fileTypeCounts ext).getD 0 =
        (lookupRec st.fileTypeCounts ext).getD 0 +
        (encounteredExts oracle d p).count ext := by
  intro d
  induction d with
  | zero =>
    intro p st ext
    simp [exploreDirectory, encounteredExts]
  | succ d ih =>
    intro p st ext
    show (lookupRec (exploreStep oracle (exploreDirectory oracle d) p
      st).2.fileTypeCounts ext).getD 0 = _
    cases h : oracle p with
    | dir entries =>
      have h1 : exploreStep oracle (exploreDirectory oracle d) p st =
          exploreEntries (exploreDirectory oracle d) p entries st := by
        unfold exploreStep
        rw [h]
      have h2 : encounteredExts oracle (d + 1) p =
          entries.flatMap (fun item =>
            (if item.typ = "file" then [extnameJs item.name] else []) ++
            (if shouldExpand item then
              encounteredExts oracle d
                (if p ≠ "" then p ++ "/" ++ item.name else item.name)
            else [])) := by
        conv_lhs => rw [encounteredExts]
        rw [h]
      rw [h1, h2]
      exact exploreEntries_counts ext (exploreDirectory oracle d)
        (encounteredExts oracle d) p (fun p2 st2 => ih p2 st2 ext) entries st
    | err =>
      have h1 : exploreStep oracle (exploreDirectory oracle d) p st =
          ([], st) := by
        unfold exploreStep
        rw [h]
      have h2 : encounteredExts oracle (d + 1) p = [] := by
        conv_lhs => rw [encounteredExts]
        rw [h]
      rw [h1, h2]
      simp
    | file =>
      have h1 : exploreStep oracle (exploreDirectory oracle d) p st =
          ([], st) := by
        unfold exploreStep
        rw [h]
      have h2 : encounteredExts oracle (d + 1) p = [] := by
        conv_lhs => rw [encounteredExts]
        rw [h]
      rw [h1, h2]
      simp

/-- C8: scenario D — on the tree `examples/` (depth 1) containing `demo.tsx`
(depth 2), the default depth-2 analysis suggests `examples` as an example path
and counts `.tsx` once — and, generally, the extension histogram tallies
exactly the file entries encountered during expansion at any depth: the count
at each extension equals its number of occurrences along the traversal. -/
theorem analyzer_scenario_claim :
    ((analyzeRepositoryState (fun p =>
        if p = "" then FetchResult.dir [DirEntry.mk "examples" "dir"]
        else if p = "examples" then
          FetchResult.dir [DirEntry.mk "demo.tsx" "file"]
        else FetchResult.err)).examplePaths = ["examples"] ∧
     lookupRec (analyzeRepositoryState (fun p =>
        if p = "" then FetchResult.dir [DirEntry.mk "examples" "dir"]
        else if p = "examples" then
          FetchResult.dir [DirEntry.mk "demo.tsx" "file"]
        else FetchResult.err)).fileTypeCounts ".tsx" = some 1) ∧
    (∀ (oracle : String → FetchResult) (d : Nat) (p ext : String),
      (lookupRec (exploreDirectory oracle d p
        initAnalyzeState).2.fileTypeCounts ext).getD 0 =
      (encounteredExts oracle d p).count ext) := by
  refine ⟨⟨by decide, by decide⟩, ?_⟩
  intro oracle d p ext
  have h := exploreDirectory_counts oracle d p initAnalyzeState ext
  simpa [initAnalyzeState, lookupRec] using h

theorem char_toNat_lt (c : Char) : c.toNat < 1114112 := by
  have h := c.valid
  have he : c.toNat = c.val.toNat := rfl
  rcases h with h | h
  · omega
  · omega

theorem char_not_surrogate (c : Char) :
    c.toNat < 55296 ∨ 57343 < c.toNat := by
  have h := c.valid
  have he : c.toNat = c.val.toNat := rfl
  rcases h with h | h
  · left; omega
  · right; omega

theorem utf8EncodeChar_lt (c : Char) : ∀ b ∈ utf8EncodeChar c, b < 256 := by
  intro b hb
  have hlt := char_toNat_lt c
  unfold utf8EncodeChar at hb
  by_cases h1 : c.toNat < 128
  · simp [h1] at hb
    omega
  · by_cases h2 : c.toNat < 2048
    · simp [h1, h2] at hb
      rcases hb with hb | hb <;> omega
    · by_cases h3 : c.toNat < 65536
      · simp [h1, h2, h3] at hb
        rcases hb with hb | hb | hb <;> omega
      · simp [h1, h2, h3] at hb
        rcases hb with hb | hb | hb | hb <;> omega

theorem utf8Decode_encodeChar (c : Char) (tail : List Nat) :
    utf8Decode (utf8EncodeChar c ++ tail) = c :: utf8Decode tail := by
  have hlt := char_toNat_lt c
  have hsur := char_not_surrogate c
  unfold utf8EncodeChar
  by_cases h1 : c.toNat < 128
  · rw [if_pos h1]
    show utf8Decode (c.toNat :: tail) = _
    have hstep : utf8Step c.toNat tail = (Char.ofNat c.toNat, 0) := by
      unfold utf8Step
      rw [if_pos h1]
    simp only [utf8Decode, hstep, List.drop_zero, Char.ofNat_toNat]
  · by_cases h2 : c.toNat < 2048
    · rw [if_neg h1, if_pos h2]
      show utf8Decode (((192 + c.toNat / 64)) ::
        ((128 + c.toNat % 64) :: tail)) = _
      have hstep : utf8Step (192 + c.toNat / 64) ((128 + c.toNat % 64) :: tail) =
          (Char.ofNat c.toNat, 1) := by
        have hcont : isCont (128 + c.toNat % 64) = true := by
          unfold isCont
          simp
          omega
        unfold utf8Step
        rw [if_neg (by omega), if_pos (by constructor <;> omega)]
        show (if isCont (128 + c.toNat % 64) = true then
            (Char.ofNat ((192 + c.toNat / 64 - 192) * 64 +
              (128 + c.toNat % 64 - 128)), 1)
          else ('\uFFFD', 0)) = _
        rw [if_pos hcont]
        have hval : (192 + c.toNat / 64 - 192) * 64 +
            (128 + c.toNat % 64 - 128) = c.toNat := by omega
        rw [hval]
      simp only [utf8Decode, hstep, List.drop_one, List.tail_cons,
        Char.ofNat_toNat]
    · by_cases h3 : c.toNat < 65536
      · rw [if_neg h1, if_neg h2, if_pos h3]
        show utf8Decode ((224 + c.toNat / 4096) ::
          ((128 + c.toNat / 64 % 64) :: (128 + c.toNat % 64) :: tail)) = _
        have hstep : utf8Step (224 + c.toNat / 4096)
            ((128 + c.toNat / 64 % 64) :: (128 + c.toNat % 64) :: tail) =
            (Char.ofNat c.toNat, 2) := by
          have hcont2 : cont2Ok (224 + c.toNat / 4096)
              (128 + c.toNat / 64 % 64) = true := by
            unfold cont2Ok
            by_cases he : 224 + c.toNat / 4096 = 224
            · rw [if_pos he]
              simp
              omega
            · rw [if_neg he]
              by_cases hd : 224 + c.toNat / 4096 = 237
              · rw [if_pos hd]
                simp
                rcases hsur with hs | hs <;> omega
              · rw [if_neg hd]
                unfold isCont
                simp
                omega
          have hcontd : isCont (128 + c.toNat % 64) = true := by
            unfold isCont
            simp
            omega
          unfold utf8Step
          rw [if_neg (by omega), if_neg (by omega),
            if_pos (by constructor <;> omega)]
          show (if cont2Ok (224 + c.toNat / 4096) (128 + c.toNat / 64 % 64) =
              true ∧ isCont (128 + c.toNat % 64) = true then
              (Char.ofNat ((224 + c.toNat / 4096 - 224) * 4096 +
                (128 + c.toNat / 64 % 64 - 128) * 64 +
                (128 + c.toNat % 64 - 128)), 2)
            else ('\uFFFD', 0)) = _
          rw [if_pos ⟨hcont2, hcontd⟩]
          have hval : (224 + c.toNat / 4096 - 224) * 4096 +
              (128 + c.toNat / 64 % 64 - 128) * 64 +
              (128 + c.toNat % 64 - 128) = c.toNat := by omega
          rw [hval]
        simp only [utf8Decode, hstep, Char.ofNat_toNat]
        rfl
      · rw [if_neg h1, if_neg h2, if_neg h3]
        show utf8Decode ((240 + c.toNat / 262144) ::
          ((128 + c.toNat / 4096 % 64) :: (128 + c.toNat / 64 % 64) ::
            (128 + c.toNat % 64) :: tail)) = _
        have hstep : utf8Step (240 + c.toNat / 262144)
            ((128 + c.toNat / 4096 % 64) :: (128 + c.toNat / 64 % 64) ::
              (128 + c.toNat % 64) :: tail) = (Char.ofNat c.toNat, 3) := by
          have hcont3 : cont3Ok (240 + c.toNat / 262144)
              (128 + c.toNat / 4096 % 64) = true := by
            unfold cont3Ok
            by_cases he : 240 + c.toNat / 262144 = 240
            · rw [if_pos he]
              simp
              omega
            · rw [if_neg he]
              by_cases hd : 240 + c.toNat / 262144 = 244
              · rw [if_pos hd]
                simp
                omega
              · rw [if_neg hd]
                unfold isCont
                simp
                omega
          have hcd : isCont (128 + c.toNat / 64 % 64) = true := by
            unfold isCont
            simp
            omega
          have hce : isCont (128 + c.toNat % 64) = true := by
            unfold isCont
            simp
            omega
          unfold utf8Step
          rw [if_neg (by omega), if_neg (by omega), if_neg (by omega),
            if_pos (by constructor <;> omega)]
          show (if cont3Ok (240 + c.toNat / 262144) (128 + c.toNat / 4096 % 64) =
              true ∧ isCont (128 + c.toNat / 64 % 64) = true ∧
              isCont (128 + c.toNat % 64) = true then
              (Char.ofNat ((240 + c.toNat / 262144 - 240) * 262144 +
                (128 + c.toNat / 4096 % 64 - 128) * 4096 +
                (128 + c.toNat / 64 % 64 - 128) * 64 +
                (128 + c.toNat % 64 - 128)), 3)
            else ('\uFFFD', 0)) = _
          rw [if_pos ⟨hcont3, hcd, hce⟩]
          have hval : (240 + c.toNat / 262144 - 240) * 262144 +
              (128 + c.toNat / 4096 % 64 - 128) * 4096 +
              (128 + c.toNat / 64 % 64 - 128) * 64 +
              (128 + c.toNat % 64 - 128) = c.toNat := by omega
          rw [hval]
        simp only [utf8Decode, hstep, Char.ofNat_toNat]
        rfl

theorem utf8_roundtrip (l : List Char) :
    utf8Decode (l.flatMap utf8EncodeChar) = l := by
  induction l with
  | nil => simp [utf8Decode]
  | cons c cs ih =>
    rw [List.flatMap_cons, utf8Decode_encodeChar, ih]

theorem sextet_b64Char : ∀ v : Nat, v < 64 → sextet (b64Char v) = some v := by
  decide

theorem sextet_eq : sextet '=' = none := by decide

theorem b64_roundtrip_aux :
    ∀ (n : Nat) (bs : List Nat), bs.length ≤ n → (∀ b ∈ bs, b < 256) →
      sextetsToBytes ((b64EncodeBytes bs).filterMap sextet) = bs := by
  intro n
  induction n with
  | zero =>
    intro bs hlen _
    have : bs = [] := List.length_eq_zero.mp (by omega)
    rw [this]
    rfl
  | succ n ih =>
    intro bs hlen hbound
    match bs with
    | [] => rfl
    | [x] =>
      have hx : x < 256 := hbound x (by simp)
      have h1 : sextet (b64Char (x / 4)) = some (x / 4) :=
        sextet_b64Char _ (by omega)
      have h2 : sextet (b64Char (x % 4 * 16)) = some (x % 4 * 16) :=
        sextet_b64Char _ (by omega)
      show sextetsToBytes (List.filterMap sextet
        [b64Char (x / 4), b64Char (x % 4 * 16), '=', '=']) = [x]
      rw [List.filterMap_cons, h1, List.filterMap_cons, h2,
        List.filterMap_cons, sextet_eq, List.filterMap_cons, sextet_eq,
        List.filterMap_nil]
      show [x / 4 * 4 + x % 4 * 16 / 16] = [x]
      congr 1
      omega
    | [x, y] =>
      have hx : x < 256 := hbound x (by simp)
      have hy : y < 256 := hbound y (by simp)
      have h1 : sextet (b64Char (x / 4)) = some (x / 4) :=
        sextet_b64Char _ (by omega)
      have h2 : sextet (b64Char (x % 4 * 16 + y / 16)) =
          some (x % 4 * 16 + y / 16) := sextet_b64Char _ (by omega)
      have h3 : sextet (b64Char (y % 16 * 4)) = some (y % 16 * 4) :=
        sextet_b64Char _ (by omega)
      show sextetsToBytes (List.filterMap sextet
        [b64Char (x / 4), b64Char (x % 4 * 16 + y / 16),
          b64Char (y % 16 * 4), '=']) = [x, y]
      rw [List.filterMap_cons, h1, List.filterMap_cons, h2,
        List.filterMap_cons, h3, List.filterMap_cons, sextet_eq,
        List.filterMap_nil]
      show [x / 4 * 4 + (x % 4 * 16 + y / 16) / 16,
        (x % 4 * 16 + y / 16) % 16 * 16 + y % 16 * 4 / 4] = [x, y]
      congr 1
      · omega
      · congr 1
        omega
    | x :: y :: z :: rest =>
      have hx : x < 256 := hbound x (by simp)
      have hy : y < 256 := hbound y (by simp)
      have hz : z < 256 := hbound z (by simp)
      have h1 : sextet (b64Char (x / 4)) = some (x / 4) :=
        sextet_b64Char _ (by omega)
      have h2 : sextet (b64Char (x % 4 * 16 + y / 16)) =
          some (x % 4 * 16 + y / 16) := sextet_b64Char _ (by omega)
      have h3 : sextet (b64Char (y % 16 * 4 + z / 64)) =
          some (y % 16 * 4 + z / 64) := sextet_b64Char _ (by omega)
      have h4 : sextet (b64Char (z % 64)) = some (z % 64) :=
        sextet_b64Char _ (by omega)
      have hrest := ih rest (by simp at hlen; omega)
        (fun b hb => hbound b (by simp [hb]))
      show sextetsToBytes (List.filterMap sextet
        (b64Char (x / 4) :: b64Char (x % 4 * 16 + y / 16) ::
          b64Char (y % 16 * 4 + z / 64) :: b64Char (z % 64) ::
          b64EncodeBytes rest)) = x :: y :: z :: rest
      rw [List.filterMap_cons, h1, List.filterMap_cons, h2,
        List.filterMap_cons, h3, List.filterMap_cons, h4]
      show (x / 4 * 4 + (x % 4 * 16 + y / 16) / 16) ::
        ((x % 4 * 16 + y / 16) % 16 * 16 + (y % 16 * 4 + z / 64) / 4) ::
        ((y % 16 * 4 + z / 64) % 4 * 64 + z % 64) ::
        sextetsToBytes (List.filterMap sextet (b64EncodeBytes rest)) = _
      rw [hrest]
      congr 1
      · omega
      · congr 1
        · omega
        · congr 1
          omega

/-- C9: decoding the base64 encoding of any text's UTF-8 bytes gives back the
text: `decodeGitHubContent(base64Encode(text)) == text`. -/
theorem decode_base64Encode_roundtrip (s : String) :
    decodeGitHubContent (base64Encode s) = s := by
  show String.mk (utf8Decode (sextetsToBytes
    ((b64EncodeBytes (utf8Encode s)).filterMap sextet))) = s
  rw [b64_roundtrip_aux (utf8Encode s).length (utf8Encode s) (le_refl _)]
  · rw [show utf8Encode s = s.data.flatMap utf8EncodeChar from rfl,
      utf8_roundtrip]
  · intro b hb
    rcases List.mem_flatMap.mp hb with ⟨c, _, hc⟩
    exact utf8EncodeChar_lt c b hc

theorem sextet_ne_eq (c : Char) (v : Nat) (h : sextet c = some v) : c ≠ '=' := by
  intro hc
  rw [hc, sextet_eq] at h
  exact Option.noConfusion h

theorem strictB64_agrees :
    ∀ (n : Nat) (cs : List Char) (bs : List Nat), cs.length ≤ n →
      strictB64Groups cs = some bs →
      sextetsToBytes (cs.filterMap sextet) = bs := by
  intro n
  induction n with
  | zero =>
    intro cs bs hlen h
    have hnil : cs = [] := List.length_eq_zero.mp (by omega)
    subst hnil
    have h2 : (some [] : Option (List Nat)) = some bs := h
    have h3 : bs = [] := by injection h2 with h4; exact h4.symm
    subst h3
    rfl
  | succ n ih =>
    intro cs bs hlen h
    match cs with
    | [] =>
      have h2 : (some [] : Option (List Nat)) = some bs := h
      have h3 : bs = [] := by injection h2 with h4; exact h4.symm
      subst h3
      rfl
    | [a] => exact absurd h (by simp [strictB64Groups])
    | [a, b] => exact absurd h (by simp [strictB64Groups])
    | [a, b, c] => exact absurd h (by simp [strictB64Groups])
    | a :: b :: c :: d :: rest =>
      rw [show strictB64Groups (a :: b :: c :: d :: rest) =
        (match sextet a, sextet b with
        | some va, some vb =>
          if c = '=' ∧ d = '=' ∧ rest = [] then some [va * 4 + vb / 16]
          else
            match sextet c with
            | some vc =>
              if d = '=' ∧ rest = [] then
                some [va * 4 + vb / 16, vb % 16 * 16 + vc / 4]
              else
                match sextet d with
                | some vd =>
                  match strictB64Groups rest with
                  | some bs2 =>
                    some ((va * 4 + vb / 16) :: (vb % 16 * 16 + vc / 4) ::
                      (vc % 4 * 64 + vd) :: bs2)
                  | none => none
                | none => none
            | none => none
        | _, _ => none) from rfl] at h
      cases ha : sextet a with
      | none => simp only [ha] at h; exact Option.noConfusion h
      | some va =>
        cases hb : sextet b with
        | none => simp only [ha, hb] at h; exact Option.noConfusion h
        | some vb =>
          simp only [ha, hb] at h
          by_cases hpad2 : c = '=' ∧ d = '=' ∧ rest = []
          · rw [if_pos hpad2] at h
            have h2 : bs = [va * 4 + vb / 16] := by
              injection h with h3; exact h3.symm
            subst h2
            rcases hpad2 with ⟨hc, hd, hrest⟩
            subst hc; subst hd; subst hrest
            show sextetsToBytes (List.filterMap sextet
              (a :: b :: '=' :: '=' :: [])) = _
            rw [List.filterMap_cons, ha, List.filterMap_cons, hb,
              List.filterMap_cons, sextet_eq, List.filterMap_cons, sextet_eq,
              List.filterMap_nil]
            rfl
          · rw [if_neg hpad2] at h
            cases hc : sextet c with
            | none => simp only [hc] at h; exact Option.noConfusion h
            | some vc =>
              simp only [hc] at h
              by_cases hpad1 : d = '=' ∧ rest = []
              · rw [if_pos hpad1] at h
                have h2 : bs = [va * 4 + vb / 16, vb % 16 * 16 + vc / 4] := by
                  injection h with h3; exact h3.symm
                subst h2
                rcases hpad1 with ⟨hd, hrest⟩
                subst hd; subst hrest
                show sextetsToBytes (List.filterMap sextet
                  (a :: b :: c :: '=' :: [])) = _
                rw [List.filterMap_cons, ha, List.filterMap_cons, hb,
                  List.filterMap_cons, hc, List.filterMap_cons, sextet_eq,
                  List.filterMap_nil]
                rfl
              · rw [if_neg hpad1] at h
                cases hd : sextet d with
                | none => simp only [hd] at h; exact Option.noConfusion h
                | some vd =>
                  simp only [hd] at h
                  cases hrec : strictB64Groups rest with
                  | none => simp only [hrec] at h; exact Option.noConfusion h
                  | some bs2 =>
                    simp only [hrec] at h
                    have h2 : bs = (va * 4 + vb / 16) ::
                        (vb % 16 * 16 + vc / 4) :: (vc % 4 * 64 + vd) ::
                        bs2 := by
                      injection h with h3; exact h3.symm
                    subst h2
                    have htail := ih rest bs2 (by simp at hlen; omega) hrec
                    show sextetsToBytes (List.filterMap sextet
                      (a :: b :: c :: d :: rest)) = _
                    rw [List.filterMap_cons, ha, List.filterMap_cons, hb,
                      List.filterMap_cons, hc, List.filterMap_cons, hd]
                    show (va * 4 + vb / 16) :: (vb % 16 * 16 + vc / 4) ::
                      (vc % 4 * 64 + vd) ::
                      sextetsToBytes (List.filterMap sextet rest) = _
                    rw [htail]

/-- C10 counterexample: `decodeFileBody` never fails — `"!!!"` is not valid
base64 (the strict decoder rejects it) yet the operation returns a decoded
text (the empty string: every invalid character is skipped) instead of
failing with a `DecodeError`. -/
theorem decode_invalid_returns_text_counterexample :
    strictBase64Decode "!!!" = none ∧ decodeGitHubContent "!!!" = "" := by
  constructor
  · decide
  · have h : "!!!".data.filterMap sextet = [] := by decide
    show String.mk (utf8Decode (sextetsToBytes
      ("!!!".data.filterMap sextet))) = ""
    rw [h]
    show String.mk (utf8Decode []) = ""
    simp [utf8Decode]

/-- C10 (amended): `decodeFileBody` is total: it never fails.  On valid base64
it returns the UTF-8 decoding of the exactly-decoded bytes (it agrees with a
strict base64 decoder); on invalid base64 it still returns a text, skipping
the characters outside the base64 alphabet, rather than failing. -/
theorem decode_total_agrees_with_strict (s : String) (bs : List Nat)
    (h : strictBase64Decode s = some bs) :
    decodeGitHubContent s = String.mk (utf8Decode bs) := by
  show String.mk (utf8Decode (sextetsToBytes (s.data.filterMap sextet))) = _
  rw [strictB64_agrees s.data.length s.data bs (le_refl _) h]

theorem decode_total_agrees_with_strict_witness :
    decodeGitHubContent "aGk=" = String.mk (utf8Decode [104, 105]) :=
  decode_total_agrees_with_strict "aGk=" [104, 105] (by decide)
